import Mathlib

/-!
Verification of the lava-flow vault importer.

This file embeds the import pipeline of the repository in Lean:

* `src/deterministic-uuid.ts` — the deterministic identity generator
  (`hashString`, `toBase36`, `generateDeterministicUUID` and the
  namespace-specific wrappers);
* `src/util.ts` — the folder store helpers (`createOrGetFolder`,
  `getFolder`, `createFolder`);
* the main `LavaFlow` class — frontmatter extraction
  (`parseFrontmatterAndBody`), link rewriting (`updateLinks`), backlink
  generation (`createBacklinks`) and the import orchestration
  (`importFolder`, `importMarkdownFile`, `createJournal`,
  `createJournalPage`).

Strings are modelled as `List Char`; where the JavaScript code reads
UTF-16 code units (`charCodeAt`) we work with `List Nat` of code units.
The Foundry VTT document store (an external collaborator of the core,
spec §6) is modelled as explicit state: ordered lists of folder,
journal and page documents; `create` succeeds and honours
caller-supplied ids (`keepId` semantics, spec §6), and a `create`
without an id receives a fresh store-generated id.
-/

namespace LavaFlow

/-! ## Deterministic identity generator (src/deterministic-uuid.ts) -/

/-- JavaScript `ToInt32`: wrap an integer into the signed 32-bit range
`[-2^31, 2^31)`.  This is what `x & x` and `x << 5` apply to their
operands/results. -/
def jsInt32 (n : Int) : Int := (n + 2147483648) % 4294967296 - 2147483648

/-- One iteration of the loop in `hashString`:
`hash = ((hash << 5) - hash) + char; hash = hash & hash;`.
`hash << 5` truncates `hash * 32` to 32 bits, and `hash & hash`
truncates the sum again. -/
def hashStep (h : Int) (c : Nat) : Int := jsInt32 (jsInt32 (h * 32) - h + (c : Int))

/-- The signed 32-bit accumulator of `hashString` before `Math.abs`,
starting from `hash = 0` and folding over the UTF-16 code units. -/
def hashRaw (s : List Nat) : Int := s.foldl hashStep 0

/-- `hashString` of src/deterministic-uuid.ts: the 32-bit rolling hash,
returned through `Math.abs`. -/
def hashString (s : List Nat) : Nat := (hashRaw s).natAbs

/-- Base-36 digit extraction with explicit fuel (the fuel `n` is always
enough, since the value shrinks by a factor 36 each step); kept
structural so that concrete identities evaluate inside proofs. -/
def toB36Aux : Nat → Nat → List Nat
  | 0, _ => []
  | fuel + 1, n => if n = 0 then [] else toB36Aux fuel (n / 36) ++ [n % 36]

/-- Base-36 digits of `n`, most significant first; `0` renders as the
single digit `0`, matching `Number.prototype.toString(36)`. -/
def toB36 (n : Nat) : List Nat := if n = 0 then [0] else toB36Aux n n

/-- `String.prototype.padStart(len, '0')` on a digit string. -/
def padTo (len : Nat) (ds : List Nat) : List Nat := List.replicate (len - ds.length) 0 ++ ds

/-- `toBase36(num, length)` of src/deterministic-uuid.ts:
`num.toString(36).padStart(length, '0')`, as a digit list. -/
def toBase36 (num len : Nat) : List Nat := padTo len (toB36 num)

/-- A base-36 digit as a character: `0`-`9` then `a`-`z`, as produced by
`Number.prototype.toString(36)`. -/
def digitChar36 (d : Nat) : Char := if d < 10 then Char.ofNat (48 + d) else Char.ofNat (87 + d)

/-- Code units of `'salt1'`. -/
def salt1 : List Nat := [115, 97, 108, 116, 49]

/-- Code units of `'salt2'`. -/
def salt2 : List Nat := [115, 97, 108, 116, 50]

/-- The 16 base-36 digits of `generateDeterministicUUID` for a combined
input string: `(part1 + part2 + part3).substring(0, 16)` where
`part1 = toBase36(hashString(input), 6)`,
`part2 = toBase36(hashString(input + 'salt1'), 5)`,
`part3 = toBase36(hashString(input + 'salt2'), 5)`. -/
def uuidDigits (input : List Nat) : List Nat :=
  (toBase36 (hashString input) 6 ++
    toBase36 (hashString (input ++ salt1)) 5 ++
    toBase36 (hashString (input ++ salt2)) 5).take 16

/-- `generateDeterministicUUID(path, namespace)` of
src/deterministic-uuid.ts.  The combined input is
`namespace + ':' + path` (58 is the code unit of `':'`); the result is
rendered with base-36 digit characters. -/
def generateDeterministicUUID (path ns : List Nat) : List Char :=
  (uuidDigits (ns ++ 58 :: path)).map digitChar36

/-- Code units of the `'folder'` namespace. -/
def folderNS : List Nat := [102, 111, 108, 100, 101, 114]

/-- Code units of the `'journal'` namespace. -/
def journalNS : List Nat := [106, 111, 117, 114, 110, 97, 108]

/-- Code units of the `'page'` namespace. -/
def pageNS : List Nat := [112, 97, 103, 101]

/-- A character is alphanumeric in the base-36 sense: a decimal digit or
a lowercase letter. -/
def isBase36Char (c : Char) : Bool := (decide ('0' ≤ c) && decide (c ≤ '9')) ||
  (decide ('a' ≤ c) && decide (c ≤ 'z'))

/-- The leading digit of the 5-padded base-36 rendering of `n`
(for `n < 36 ^ 6`): `0` when `n < 36 ^ 4`, otherwise the top digit. -/
def headDigit (n : Nat) : Nat := if n < 36 ^ 5 then n / 36 ^ 4 else n / 36 ^ 5

/-! ## Text helpers (JavaScript string operations on `List Char`) -/

/-- The characters of a string literal, as a `List Char`. -/
def strL (s : String) : List Char := s.data

/-- ASCII whitespace as recognised by the JS `\s` class and `trim`
(the Unicode space characters do not occur in the inputs considered
here). -/
def isSpaceChar (c : Char) : Bool :=
  c == ' ' || c == Char.ofNat 9 || c == Char.ofNat 10 || c == Char.ofNat 13

/-- `String.prototype.startsWith` on char lists. -/
def startsWith : List Char → List Char → Bool
  | _, [] => true
  | [], _ :: _ => false
  | c :: s, p :: ps => c == p && startsWith s ps

/-- `String.prototype.trim`. -/
def trimJS (s : List Char) : List Char :=
  ((s.dropWhile fun c => isSpaceChar c).reverse.dropWhile fun c => isSpaceChar c).reverse

/-- ASCII lowercasing of one character (`String.prototype.toLowerCase`
restricted to ASCII, which covers the keys and values compared by the
code). -/
def toLowerChar (c : Char) : Char :=
  if 'A' ≤ c ∧ c ≤ 'Z' then Char.ofNat (c.toNat + 32) else c

/-- ASCII `String.prototype.toLowerCase`. -/
def toLowerStr (s : List Char) : List Char := s.map toLowerChar

/-- `String.prototype.split(sep)` for a single-character separator. -/
def splitOnCharAux (sep : Char) : List Char → List Char → List (List Char)
  | [], acc => [acc.reverse]
  | c :: rest, acc =>
      if c == sep then acc.reverse :: splitOnCharAux sep rest []
      else splitOnCharAux sep rest (c :: acc)

/-- `String.prototype.split(sep)` for a single-character separator. -/
def splitOnChar (sep : Char) (s : List Char) : List (List Char) := splitOnCharAux sep s []

/-- `Array.prototype.join(sep)` for a single-character separator. -/
def joinChar (sep : Char) : List (List Char) → List Char
  | [] => []
  | [l] => l
  | l :: rest => l ++ sep :: joinChar sep rest

/-- `String.prototype.includes`: contiguous substring test. -/
def containsSub : List Char → List Char → Bool
  | [], pat => pat.isEmpty
  | c :: rest, pat => startsWith (c :: rest) pat || containsSub rest pat

/-- `String.prototype.replace(pat, repl)` with a plain-string pattern:
replace the first occurrence of `pat` (the replacement string is taken
literally; the links substituted by the code contain no `$` patterns). -/
def replaceFirst : List Char → List Char → List Char → List Char
  | [], pat, repl => if pat.isEmpty then repl else []
  | c :: rest, pat, repl =>
      if startsWith (c :: rest) pat then repl ++ (c :: rest).drop pat.length
      else c :: replaceFirst rest pat repl

/-! ## Frontmatter extraction (`LavaFlow.parseFrontmatterAndBody`) -/

/-- Values held in the lightweight frontmatter map: booleans (from the
`true`/`false` coercion) or strings. -/
inductive FmVal where
  | b (v : Bool)
  | s (v : List Char)
deriving DecidableEq

/-- Key characters of the frontmatter line regex: `[A-Za-z0-9_-]`. -/
def isKeyChar (c : Char) : Bool :=
  (decide ('A' ≤ c) && decide (c ≤ 'Z')) || (decide ('a' ≤ c) && decide (c ≤ 'z')) ||
    (decide ('0' ≤ c) && decide (c ≤ '9')) || c == '_' || c == '-'

/-- A quote character, `'` or `"`. -/
def isQuoteChar (c : Char) : Bool := c == Char.ofNat 39 || c == Char.ofNat 34

/-- Match one frontmatter line against
`^\s*([A-Za-z0-9_-]+)\s*:\s*(.*)\s*$` and return the key and the value
capture.  Because key characters exclude whitespace and `':'`, the
regex matches exactly when the line is: optional whitespace, a maximal
nonempty key run, optional whitespace, `':'`, rest; the trailing `\s*`
strips nothing past the greedy `(.*)`, and the code trims the value
anyway, so the capture is returned with surrounding space removed. -/
def fmMatchLine (line : List Char) : Option (List Char × List Char) :=
  let afterWs := line.dropWhile fun c => isSpaceChar c
  let key := afterWs.takeWhile fun c => isKeyChar c
  let afterKey := (afterWs.drop key.length).dropWhile fun c => isSpaceChar c
  if key.isEmpty then none
  else
    match afterKey with
    | ':' :: rest => some (key, trimJS rest)
    | _ => none

/-- The value coercion of the YAML-ish parse: `true`/`false` (case
insensitively) become booleans, a value wrapped in quote characters is
unquoted, anything else stays a string. -/
def fmCoerce (val : List Char) : FmVal :=
  if toLowerStr val == strL "true" then FmVal.b true
  else if toLowerStr val == strL "false" then FmVal.b false
  else if decide (2 ≤ val.length) && isQuoteChar (val.headD ' ') &&
      isQuoteChar (val.getLastD ' ') then
    FmVal.s (val.drop 1).dropLast
  else FmVal.s val

/-- JS object property assignment `frontmatter[key] = val`: replace the
entry for `key` if present, otherwise append it. -/
def fmSet (m : List (List Char × FmVal)) (k : List Char) (v : FmVal) :
    List (List Char × FmVal) :=
  if m.any fun p => p.1 == k then m.map fun p => if p.1 == k then (k, v) else p
  else m ++ [(k, v)]

/-- JS object property read `frontmatter[key]`. -/
def fmLookup (m : List (List Char × FmVal)) (k : List Char) : Option FmVal :=
  (m.find? fun p => p.1 == k).map fun p => p.2

/-- `String(v)` (JS string coercion) of a frontmatter value; an absent
property coerces to the string `"undefined"`. -/
def fmValToString : Option FmVal → List Char
  | some (FmVal.b true) => strL "true"
  | some (FmVal.b false) => strL "false"
  | some (FmVal.s s) => s
  | none => strL "undefined"

/-- `yaml.split(/\r?\n/)`: split at `\r\n` or `\n` (a lone `\r` is not a
separator for this regex). -/
def splitLinesRNAux : List Char → List Char → List (List Char)
  | [], acc => [acc.reverse]
  | '\r' :: '\n' :: rest, acc => acc.reverse :: splitLinesRNAux rest []
  | '\n' :: rest, acc => acc.reverse :: splitLinesRNAux rest []
  | c :: rest, acc => splitLinesRNAux rest (c :: acc)

/-- `yaml.split(/\r?\n/)`. -/
def splitLinesRN (s : List Char) : List (List Char) := splitLinesRNAux s []

/-- The line loop of the YAML-ish frontmatter parse: each matching line
assigns `frontmatter[key.toLowerCase()] = coerced value`; non-matching
lines are ignored silently. -/
def parseFmLines (yaml : List Char) : List (List Char × FmVal) :=
  (splitLinesRN yaml).foldl
    (fun m line =>
      match fmMatchLine line with
      | none => m
      | some (key, raw) => fmSet m (toLowerStr key) (fmCoerce raw))
    []

/-- The lazy close of the frontmatter block: the least split of the text
after the opening delimiter as `content ++ nl ++ "---" ++ rest` with
`nl` matching `\r?\n` (the non-greedy `([\s\S]*?)\r?\n---`).  Returns
the content capture and the text right after the closing `---`. -/
def findFmClose : List Char → Option (List Char × List Char)
  | [] => none
  | c :: rest =>
      if startsWith (c :: rest) (strL "\r\n---") then some ([], (c :: rest).drop 5)
      else if startsWith (c :: rest) (strL "\n---") then some ([], (c :: rest).drop 4)
      else (findFmClose rest).map fun pr => (c :: pr.1, pr.2)

/-- Match `raw` against `/^---\r?\n([\s\S]*?)\r?\n---(\r?\n)?/`: the
frontmatter capture (group 1) and the remainder of the string after the
whole match.  The same regex is used both to grab the block and to
delete it, so this one function serves both uses in the source. -/
def fmBlockSplit (raw : List Char) : Option (List Char × List Char) :=
  let afterOpen : Option (List Char) :=
    if startsWith raw (strL "---\r\n") then some (raw.drop 5)
    else if startsWith raw (strL "---\n") then some (raw.drop 4)
    else none
  match afterOpen with
  | none => none
  | some t =>
      match findFmClose t with
      | none => none
      | some (content, rest) =>
          let rest2 := if startsWith rest (strL "\r\n") then rest.drop 2
            else if startsWith rest (strL "\n") then rest.drop 1
            else rest
          some (content, rest2)

/-! ## Body post-processing -/

/-- Alphanumeric characters `[0-9A-Za-z]`. -/
def isAlnumChar (c : Char) : Bool :=
  (decide ('0' ≤ c) && decide (c ≤ '9')) || (decide ('A' ≤ c) && decide (c ≤ 'Z')) ||
    (decide ('a' ≤ c) && decide (c ≤ 'z'))

/-- Does text `cs` following a line-initial `'#'` complete a match of
`^#[0-9A-Za-z]+\b`?  The greedy `[0-9A-Za-z]+` takes the maximal
alphanumeric run; `\b` then holds unless the next character is `'_'`
(shrinking the run cannot help, since that puts two word characters at
the boundary). -/
def hashMarkMatches (cs : List Char) : Bool :=
  !(cs.takeWhile isAlnumChar).isEmpty &&
    !((cs.drop (cs.takeWhile isAlnumChar).length).head? == some '_')

/-- The scan behind `body.replace(/^#[0-9A-Za-z]+\b/gm, ' $&')`:
`atStart` records whether the scanner sits at a line start (start of
string or right after a line terminator — JS multiline `^` also matches
after a lone `\r`).  A match inserts one space and scanning continues;
the `^` anchor cannot fire again before the next line break. -/
def headingTweakGo : Bool → List Char → List Char
  | _, [] => []
  | atStart, c :: cs =>
      if c == '\n' || c == '\r' then c :: headingTweakGo true cs
      else if atStart && c == '#' && hashMarkMatches cs then
        ' ' :: c :: headingTweakGo false cs
      else c :: headingTweakGo false cs

/-- `body.replace(/^#[0-9A-Za-z]+\b/gm, ' $&')` (the heading tweak of
`parseFrontmatterAndBody`). -/
def headingTweak (body : List Char) : List Char := headingTweakGo true body

/-- Decompose a text into lines with their terminators (`'\n'` or a
lone `'\r'`, the line terminators JS multiline anchors recognise); the
last line carries no terminator. -/
def splitTerm : List Char → List (List Char × Option Char)
  | [] => [([], none)]
  | c :: rest =>
      if c == '\n' || c == '\r' then ([], some c) :: splitTerm rest
      else
        match splitTerm rest with
        | [] => [([c], none)]
        | (l, s) :: ls => (c :: l, s) :: ls

/-- Reassemble what `splitTerm` produced. -/
def joinTerm (ls : List (List Char × Option Char)) : List Char :=
  (ls.map fun p => p.1 ++ (match p.2 with | some c => [c] | none => [])).flatten

/-- Whether a whole line triggers the heading-space insertion: it must
begin with `'#'` and the remainder must complete the regex match. -/
def lineTriggersTweak (l : List Char) : Bool :=
  match l with
  | c :: cs => c == '#' && hashMarkMatches cs
  | [] => false

/-- The situation in which, per the amended C9, a heading space is
inserted — stated structurally, from the amended claim's words: the
line starts with a single `'#'`, immediately followed by a nonempty
run of digits/letters that is maximal (the character after it, if any,
is not alphanumeric) and whose end is a word boundary (that character
is not an underscore either). -/
def headingSpaceCond (l : List Char) : Prop :=
  ∃ run rest, l = '#' :: (run ++ rest) ∧ run ≠ [] ∧
    (∀ c ∈ run, isAlnumChar c = true) ∧
    (∀ c, rest.head? = some c → (isAlnumChar c = false ∧ c ≠ '_'))

/-- `body.replace(/^> \[!dm\].*$(\r?\n^>.*$)*/gm, '')` modelled on lines
split at `\r\n`/`\n` (a lone `\r` is not treated as a line boundary
here): each run of a `> [!dm]` line followed by `>`-continuation lines
collapses to an empty line that keeps the final line terminator of the
run (the `$` of the match stops before it). -/
def splitKeepRNAux : List Char → List Char → List (List Char × List Char)
  | [], acc => [(acc.reverse, [])]
  | '\r' :: '\n' :: rest, acc => (acc.reverse, ['\r', '\n']) :: splitKeepRNAux rest []
  | '\n' :: rest, acc => (acc.reverse, ['\n']) :: splitKeepRNAux rest []
  | c :: rest, acc => splitKeepRNAux rest (c :: acc)

/-- Split a text at `\r\n`/`\n`, keeping the separators. -/
def splitKeepRN (s : List Char) : List (List Char × List Char) := splitKeepRNAux s []

/-- Reassemble what `splitKeepRN` produced. -/
def joinKeep (ls : List (List Char × List Char)) : List Char :=
  (ls.map fun p => p.1 ++ p.2).flatten

mutual

/-- The callout-stripping walk over lines: a `> [!dm]` line opens a
match. -/
def stripCalloutsGo : List (List Char × List Char) → List (List Char × List Char)
  | [] => []
  | (line, sep) :: rest =>
      if startsWith line (strL "> [!dm]") then stripCalloutsCont sep rest
      else (line, sep) :: stripCalloutsGo rest

/-- Consume `>`-continuation lines of an open callout match; `lastSep`
is the terminator of the last line matched so far, which survives the
replacement. -/
def stripCalloutsCont (lastSep : List Char) :
    List (List Char × List Char) → List (List Char × List Char)
  | [] => [([], lastSep)]
  | (line, sep) :: rest =>
      if line.head? == some '>' then stripCalloutsCont sep rest
      else ([], lastSep) :: (line, sep) :: stripCalloutsGo rest

end

/-- The frontmatter/body result of `parseFrontmatterAndBody`. -/
structure ParsedMD where
  body : List Char
  isPublic : Bool
  frontmatter : List (List Char × FmVal)
deriving DecidableEq

/-- `LavaFlow.parseFrontmatterAndBody`: grab the YAML frontmatter block
if present, run the lightweight line parse, compute the visibility
flag (`frontmatter['public'] === true ||
String(frontmatter['visibility']).toLowerCase() === 'public'`, only
when a block matched), strip the block from the body, optionally remove
`> [!dm]` callout blocks, and apply the heading tweak. -/
def parseFrontmatterAndBody (raw : List Char) (stripObsidianComments : Bool) : ParsedMD :=
  let fm := fmBlockSplit raw
  let frontmatter :=
    match fm with
    | some (yaml, _) => parseFmLines yaml
    | none => []
  let isPublic :=
    match fm with
    | some _ =>
        fmLookup frontmatter (strL "public") == some (FmVal.b true) ||
          toLowerStr (fmValToString (fmLookup frontmatter (strL "visibility"))) ==
            strL "public"
    | none => false
  let body0 :=
    match fm with
    | some (_, rest) => rest
    | none => raw
  let body1 :=
    if stripObsidianComments then joinKeep (stripCalloutsGo (splitKeepRN body0))
    else body0
  { body := headingTweak body1, isPublic := isPublic, frontmatter := frontmatter }

/-! ## Link rewriting (`LavaFlow.updateLinks`) -/

/-- One regex match produced by `matchAll` with a pattern from
`getLinkRegex`: the whole matched text (`match[0]`) and the optional
alias capture (`match[2]`; when present it contains the `'|'` and the
alias text, e.g. `"|My Alias"`). -/
structure LinkMatch where
  m0 : List Char
  m2 : Option (List Char)
deriving DecidableEq

/-- A journal page as the link rewriter and backlink generator see it:
its `text.markdown`. -/
structure PageL where
  markdown : List Char
deriving DecidableEq

/-- The fields of a `FileInfo` that `updateLinks` consumes.  The
`FileInfo` classes live in file-info.ts, which is not among the sources
at hand, so these are modelled from the spec: §4.5 — `getLinkRegex()`
yields patterns recognising references to the item inside
wiki-link/embed syntax, abstracted here as, per pattern, the `matchAll`
match list a text produces; §4.6 — `getLink(alias)` is the resolved
link markup for the item, `null` when the item has no resolvable
identity (it was never imported). -/
structure LinkFileInfo where
  isOther : Bool
  patterns : List (List Char → List LinkMatch)
  getLink : List Char → Option (List Char)

/-- Decimal digits. -/
def isDigitChar (c : Char) : Bool := decide ('0' ≤ c) && decide (c ≤ '9')

/-- Match `\|\d+(x\d+)?\]` (case-insensitive, so `x` or `X`) at the head
of `s`, returning the matched text.  The digit runs are maximal;
shrinking a maximal run only puts a digit where `x` or `]` is required,
so no backtracking helps. -/
def sizeSuffixAt (s : List Char) : Option (List Char) :=
  match s with
  | '|' :: rest =>
      let d1 := rest.takeWhile isDigitChar
      if d1.isEmpty then none
      else
        match rest.drop d1.length with
        | ']' :: _ => some ('|' :: (d1 ++ [']']))
        | c :: rest2 =>
            if c == 'x' || c == 'X' then
              let d2 := rest2.takeWhile isDigitChar
              if d2.isEmpty then none
              else
                match rest2.drop d2.length with
                | ']' :: _ => some ('|' :: (d1 ++ (c :: d2) ++ [']']))
                | _ => none
            else none
        | [] => none
  | _ => none

/-- `linkMatch[0].match(/\|\d+(x\d+)?\]/gi)` reduced to its first
element: the leftmost match of the size-suffix pattern. -/
def findSizeSuffix : List Char → Option (List Char)
  | [] => none
  | c :: rest =>
      match sizeSuffixAt (c :: rest) with
      | some m => some m
      | none => findSizeSuffix rest

/-- `link.replace(/\)$/gi, ` =${dimensionsString})`)`: splice the
dimension directive in before a final `')'`. -/
def replaceTrailingParen (link dims : List Char) : List Char :=
  if link.getLast? == some ')' then link.dropLast ++ (strL " =" ++ dims ++ strL ")")
  else link

/-- Lines 566-577 of `updateLinks`: for an asset file, look for a size
suffix in the matched text; if one is present, strip the `|` and `]`,
lowercase it, split on `'x'`, default a missing height to `'*'`, and
splice ` =WxH` before the final `')'` of the resolved link. -/
def applyResize (m0 link : List Char) : List Char :=
  match findSizeSuffix m0 with
  | none => link
  | some m =>
      let dims0 := splitOnChar 'x' (toLowerStr (m.filter fun c => !(c == '|' || c == ']')))
      let dims := if dims0.length = 1 then dims0 ++ [strL "*"] else dims0
      replaceTrailingParen link (joinChar 'x' dims)

/-- The alias computation of `updateLinks`:
`(linkMatch[2] ?? '|').split('|')[1].trim()` (the capture, when
present, always contains the leading `'|'`, so index 1 exists). -/
def aliasOf (m : LinkMatch) : List Char :=
  trimJS ((splitOnChar '|' (m.m2.getD (strL "|"))).getD 1 [])

/-- The inner match loop of `updateLinks` for one pattern on one page:
the match list was computed from a snapshot of the markdown; each match
whose alias resolves replaces its first occurrence in the current
markdown (via `updateJournalPage`); a match whose target has no
resolvable link (`getLink` returns `null`) is skipped (`continue`). -/
def applyMatches (fi : LinkFileInfo) (ms : List LinkMatch) (text : List Char) : List Char :=
  ms.foldl
    (fun cur m =>
      match fi.getLink (aliasOf m) with
      | none => cur
      | some link =>
          replaceFirst cur m.m0 (if fi.isOther then applyResize m.m0 link else link))
    text

/-- The pattern loop of `updateLinks` on one page. -/
def updateLinksPage (fi : LinkFileInfo) (text : List Char) : List Char :=
  fi.patterns.foldl (fun cur pat => applyMatches fi (pat cur) cur) text

/-- `LavaFlow.updateLinks(fileInfo, allPages)`: rewrite the references
to `fileInfo` on every page. -/
def updateLinks (fi : LinkFileInfo) (allPages : List PageL) : List PageL :=
  allPages.map fun p => { markdown := updateLinksPage fi p.markdown }

/-! ## Backlink generation (`LavaFlow.createBacklinks`) -/

/-- The fields of an `MDFileInfo` that `createBacklinks` reads.
`fileNameNoExt` and `getLink()` live in the missing file-info.ts and
are modelled from the spec (§4.7): `link` is the item's canonical
resolved link text, `null` when it has none; `journalPage` is the
`JournalEntryPage` document that `importMarkdownFile` stored on the
file. -/
structure BLFile where
  fileNameNoExt : List Char
  journalPage : Option PageL
  link : Option (List Char)

/-- `journalPage?.pages?.contents[0]` read on a `JournalEntryPage`
document: a page document carries no `pages` collection (that
collection lives on the parent `JournalEntry`), so the optional-chained
read yields `undefined`. -/
def pagesOfJournalPage (_ : PageL) : Option PageL := none

/-- The backlink-candidate test of `createBacklinks` for one other
file: `page !== undefined && page !== null && link !== null &&
page.text.markdown.includes(link)`, where
`page = otherFileInfo.journalPage?.pages?.contents[0]`. -/
def isBacklinkCandidate (fileInfo other : BLFile) : Bool :=
  match other.journalPage.bind pagesOfJournalPage, fileInfo.link with
  | some page, some link => containsSub page.markdown link
  | _, _ => false

/-- `LavaFlow.createBacklinks(files)` as an index loop.  A file with no
page is skipped.  When the candidate list is empty nothing is written
and the loop continues.  When it is non-empty the source sorts the
candidates and then reads `fileInfo.journalPage.pages.contents[0]` —
`.pages` on a `JournalEntryPage` is `undefined`, so `.contents` throws
a `TypeError`; that crash (which would abort before any update) is
modelled as `none`. -/
def createBacklinksGo (files : List BLFile) (i : Nat) : Option (List BLFile) :=
  if h : i < files.length then
    let fileInfo := files.get ⟨i, h⟩
    if fileInfo.journalPage.isNone then createBacklinksGo files (i + 1)
    else
      let backlinkFiles := (List.range files.length).filter fun j =>
        decide (j ≠ i) &&
          (match files.get? j with
            | some o => isBacklinkCandidate fileInfo o
            | none => false)
      if backlinkFiles.isEmpty then createBacklinksGo files (i + 1)
      else none
  else some files
termination_by files.length - i

/-- `LavaFlow.createBacklinks`. -/
def createBacklinks (files : List BLFile) : Option (List BLFile) :=
  createBacklinksGo files 0

/-! ## Folder store (src/util.ts) -/

/-- UTF-16 code units of a text (all inputs here are in the ASCII
range, where code units coincide with code points). -/
def codesOf (s : List Char) : List Nat := s.map Char.toNat

/-- A folder document of the container store (spec §6); `depth` is the
store-maintained nesting depth (1 for root-level folders) and `ftype`
the document type the folder holds. -/
structure FolderDoc where
  id : List Char
  name : List Char
  folderParent : Option (List Char)
  ftype : List Char
  depth : Nat
deriving DecidableEq

/-- The ordered folder collection (`game.folders`). -/
abbrev FolderStore := List FolderDoc

/-- `generateFolderUUID(folderPath)` of src/deterministic-uuid.ts:
`generateDeterministicUUID(folderPath.join('/'), 'folder')`. -/
def generateFolderUUID (folderPath : List (List Char)) : List Char :=
  generateDeterministicUUID (codesOf (joinChar '/' folderPath)) folderNS

/-- `game.folders.get(id)` (ids are unique keys in Foundry; the list
model returns the first). -/
def foldersGet (s : FolderStore) (id : List Char) : Option FolderDoc :=
  s.find? fun f => f.id == id

/-- `documentExists(collection, id)` of src/deterministic-uuid.ts for
the folder collection. -/
def folderDocumentExists (s : FolderStore) (id : List Char) : Bool :=
  (foldersGet s id).isSome

/-- `getFolder(folderName, parentFolderID)` of src/util.ts.  With a
parent id, the candidates are `parent.children` (the folders whose
parent is that folder) filtered by name, first match returned; with
`null`, the store is searched for a root-level (`depth === 1`)
JournalEntry folder of that name. -/
def getFolder (s : FolderStore) (folderName : List Char)
    (parentFolderID : Option (List Char)) : Option FolderDoc :=
  match parentFolderID with
  | some pid =>
      (s.filter fun f => f.folderParent == some pid && f.name == folderName).head?
  | none =>
      s.find? fun f =>
        f.ftype == strL "JournalEntry" && f.depth == 1 && f.name == folderName

/-- `createFolder(folderName, parentFolderID, folderPath)` of
src/util.ts: compute the deterministic id of
`[...folderPath, folderName]`; if a folder with that id already exists,
return it; otherwise create (append) a folder with the deterministic id
(`keepId`), the name and the parent.  `Folder.create` succeeds in the
store model (spec §6); the store derives `depth` from the parent
chain. -/
def createFolder (s : FolderStore) (folderName : List Char)
    (parentFolderID : Option (List Char)) (folderPath : List (List Char)) :
    Option FolderDoc × FolderStore :=
  let deterministicId := generateFolderUUID (folderPath ++ [folderName])
  match foldersGet s deterministicId with
  | some f => (some f, s)
  | none =>
      let depth := match parentFolderID.bind fun pid => foldersGet s pid with
        | some p => p.depth + 1
        | none => 1
      let f : FolderDoc :=
        ⟨deterministicId, folderName, parentFolderID, strL "JournalEntry", depth⟩
      (some f, s ++ [f])

/-- `createOrGetFolder(folderName, parentFolderID, folderPath)` of
src/util.ts: a `null` or empty name yields `null` at once (no lookup,
no create); otherwise the name lookup runs first and `createFolder`
only on a miss. -/
def createOrGetFolder (s : FolderStore) (folderName : Option (List Char))
    (parentFolderID : Option (List Char)) (folderPath : List (List Char)) :
    Option FolderDoc × FolderStore :=
  match folderName with
  | none => (none, s)
  | some nm =>
      if nm.isEmpty then (none, s)
      else
        match getFolder s nm parentFolderID with
        | some f => (some f, s)
        | none => createFolder s nm parentFolderID folderPath

/-! ## Import orchestration (`LavaFlow.importVault`, document phase) -/

/-- A `JournalEntryPage` document in the store. -/
structure PageDoc where
  id : List Char
  name : List Char
  markdown : List Char
deriving DecidableEq

/-- A `JournalEntry` document with its pages; `ownership` is the
default ownership level when one has been set explicitly. -/
structure JournalDoc where
  id : List Char
  name : List Char
  folderId : Option (List Char)
  ownership : Option Nat
  pages : List PageDoc
deriving DecidableEq

/-- The document store state: the folder and journal collections plus
the store's counter for documents created without a supplied id (spec
§6: `create` assigns an id when none is given; `'@'` never occurs in a
base-36 deterministic id, so store ids cannot shadow them). -/
structure DocState where
  folders : FolderStore
  journals : List JournalDoc
  nextId : Nat
deriving DecidableEq

/-- The import settings the document phase reads (spec §6). -/
structure ImportSettings where
  combineNotes : Bool
  combineNotesNoSubfolders : Bool
  playerObserve : Bool
  overwrite : Bool
  ignoreDuplicate : Bool
  importNonMarkdown : Bool
  stripObsidianComments : Bool
  rootFolderName : Option (List Char)

/-- A markdown vault item as `importMarkdownFile` consumes it:
`fileNameNoExt` (modelled from the spec — file-info.ts is not among the
sources — as the stored file name without extension), the
`webkitRelativePath`, and the raw text. -/
structure MDFile where
  fileNameNoExt : List Char
  relPath : List Char
  rawText : List Char

/-- A vault item (spec §3: the closed item variants of file-info.ts,
modelled from the spec).  Non-markdown items only reach the asset
storage collaborator, never the document store, so they carry no
further data here. -/
inductive VaultFile where
  | md (f : MDFile)
  | other

/-- Is the item a markdown item (`f instanceof MDFileInfo`)? -/
def VaultFile.isMd : VaultFile → Bool
  | .md _ => true
  | .other => false

/-- A node of the vault folder tree (spec §3 FolderNode; folder-info.ts
is not among the sources, so the shape is modelled from the spec). -/
inductive FolderInfo where
  | mk (name : List Char) (files : List VaultFile) (childFolders : List FolderInfo)

/-- The node's name. -/
def FolderInfo.name : FolderInfo → List Char
  | .mk n _ _ => n

/-- The node's own items. -/
def FolderInfo.files : FolderInfo → List VaultFile
  | .mk _ fs _ => fs

/-- The node's child folders. -/
def FolderInfo.childFolders : FolderInfo → List FolderInfo
  | .mk _ _ cs => cs

mutual

/-- `FolderInfo.getFilesRecursive()`: every item of the subtree.
Modelled from the spec (§4.4: "at least one markdown item anywhere in
its subtree"). -/
def getFilesRecursive : FolderInfo → List VaultFile
  | .mk _ fs cs => fs ++ getFilesRecursiveList cs

/-- `getFilesRecursive` over a list of child folders. -/
def getFilesRecursiveList : List FolderInfo → List VaultFile
  | [] => []
  | c :: cs => getFilesRecursive c ++ getFilesRecursiveList cs

end

/-- `game.journal.get(id)`. -/
def journalsGet (s : DocState) (id : List Char) : Option JournalDoc :=
  s.journals.find? fun j => j.id == id

/-- `generateJournalUUID(filePath)` of src/deterministic-uuid.ts. -/
def generateJournalUUID (filePath : List Char) : List Char :=
  generateDeterministicUUID (codesOf filePath) journalNS

/-- `generatePageUUID(filePath, pageName)` of src/deterministic-uuid.ts:
the page name, when truthy, is joined to the path with `'#'`. -/
def generatePageUUID (filePath pageName : List Char) : List Char :=
  if pageName.isEmpty then generateDeterministicUUID (codesOf filePath) pageNS
  else generateDeterministicUUID (codesOf (filePath ++ '#' :: pageName)) pageNS

/-- A fresh store-generated document id. -/
def freshId (n : Nat) : List Char := '@' :: Nat.toDigits 10 n

/-- Replace the journal with id `jid` by `f` of it. -/
def updateJournalDoc (s : DocState) (jid : List Char) (f : JournalDoc → JournalDoc) :
    DocState :=
  { s with journals := s.journals.map fun j => if j.id == jid then f j else j }

/-- `LavaFlow.createJournal(journalName, parentFolder, playerObserve,
filePath?)`: with a truthy file path (present and non-empty — JavaScript
`if (filePath)` treats the empty string as false), compute the
deterministic journal id, return the existing journal if the id is
taken, otherwise create with `keepId`; with no or an empty file path,
create with a store-generated id and no lookup.  `playerObserve` sets
the default ownership to observer (level 2) at creation.  Returns the
journal id. -/
def createJournal (s : DocState) (journalName : List Char)
    (parentFolder : Option FolderDoc) (playerObserve : Bool)
    (filePath : Option (List Char)) : List Char × DocState :=
  let detId : Option (List Char) :=
    match filePath with
    | some fp => if fp.isEmpty then none else some (generateJournalUUID fp)
    | none => none
  match detId with
  | some id0 =>
      match journalsGet s id0 with
      | some j => (j.id, s)
      | none =>
          let j : JournalDoc := ⟨id0, journalName, parentFolder.map (·.id),
            if playerObserve then some 2 else none, []⟩
          (j.id, { s with journals := s.journals ++ [j] })
  | none =>
      let j : JournalDoc := ⟨freshId s.nextId, journalName, parentFolder.map (·.id),
        if playerObserve then some 2 else none, []⟩
      (j.id, { s with journals := s.journals ++ [j], nextId := s.nextId + 1 })

/-- `LavaFlow.createJournalPage(pageName, content, journalEntry,
filePath?)`: with a truthy file path, a page already carrying the
deterministic page id is returned as is; otherwise a page is created
(deterministic id with `keepId`, store id without) and appended to the
journal.  Returns the page id. -/
def createJournalPage (s : DocState) (pageName content jid : List Char)
    (filePath : Option (List Char)) : Option (List Char) × DocState :=
  match journalsGet s jid with
  | none => (none, s)
  | some j =>
      let detId : Option (List Char) :=
        match filePath with
        | some fp => if fp.isEmpty then none else some (generatePageUUID fp pageName)
        | none => none
      match detId.bind fun id0 => j.pages.find? fun p => p.id == id0 with
      | some p => (some p.id, s)
      | none =>
          let pid := match detId with
            | some id0 => id0
            | none => freshId s.nextId
          let s2 := updateJournalDoc s jid fun j2 =>
            { j2 with pages := j2.pages ++ [⟨pid, pageName, content⟩] }
          (some pid,
            { s2 with nextId := if detId.isSome then s2.nextId else s2.nextId + 1 })

/-- `LavaFlow.updateJournalPage(page, content)`: write the page body. -/
def updateJournalPageDoc (s : DocState) (jid pid content : List Char) : DocState :=
  updateJournalDoc s jid fun j =>
    { j with pages := j.pages.map fun p =>
        if p.id == pid then { p with markdown := content } else p }

/-- Lines 249-252 of `importMarkdownFile`: the deterministic-id path is
`webkitRelativePath` without its first (vault root) segment when there
is more than one segment. -/
def importFilePath (relPath : List Char) : List Char :=
  let pathParts := splitOnChar '/' relPath
  if 1 < pathParts.length then joinChar '/' (pathParts.drop 1) else relPath

/-- `LavaFlow.importMarkdownFile(file, settings, parentFolder,
parentJournal)`: outside a combining parent, look the journal up by
deterministic id, then by name and folder; fall back to
`createJournal`.  Parse the file, find the page by name, then
update it (`overwrite`), skip it (`ignoreDuplicate`), or run
`createJournalPage`.  Finally, when the journal is not a shared
combining parent, set its default ownership to observer (2) or none (0)
according to the visibility flag.  Returns the `(journal id, page id)`
reference stored on `file.journalPage`. -/
def importMarkdownFile (s : DocState) (file : MDFile) (settings : ImportSettings)
    (parentFolder : Option FolderDoc) (parentJournal : Option (List Char)) :
    Option (List Char × List Char) × DocState :=
  let pageName := file.fileNameNoExt
  let journalName := match parentJournal.bind fun jid => journalsGet s jid with
    | some j => j.name
    | none => pageName
  let filePath := importFilePath file.relPath
  let journal : Option (List Char) :=
    match parentJournal with
    | some _ => none
    | none =>
        match journalsGet s (generateJournalUUID filePath) with
        | some j => some j.id
        | none =>
            match s.journals.find? fun j =>
                j.name == journalName && j.folderId == parentFolder.map (·.id) with
            | some j => some j.id
            | none => none
  let fj : List Char × DocState :=
    match journal with
    | some jid => (jid, s)
    | none =>
        match parentJournal with
        | some jid => (jid, s)
        | none => createJournal s journalName parentFolder settings.playerObserve
            (some filePath)
  let parsed := parseFrontmatterAndBody file.rawText settings.stripObsidianComments
  let journalPage0 : Option (List Char) :=
    match journalsGet fj.2 fj.1 with
    | some j => (j.pages.find? fun p => p.name == pageName).map (·.id)
    | none => none
  let pg : Option (List Char) × DocState :=
    match journalPage0 with
    | some pid =>
        if settings.overwrite then
          (some pid, updateJournalPageDoc fj.2 fj.1 pid parsed.body)
        else if !settings.overwrite && !settings.ignoreDuplicate then
          createJournalPage fj.2 pageName parsed.body fj.1 (some filePath)
        else (some pid, fj.2)
    | none => createJournalPage fj.2 pageName parsed.body fj.1 (some filePath)
  let s3 :=
    if parentJournal.isNone then
      updateJournalDoc pg.2 fj.1 fun j =>
        { j with ownership := some (if parsed.isPublic then 2 else 0) }
    else pg.2
  (pg.1.map fun pid => (fj.1, pid), s3)

/-- `LavaFlow.importFile`: markdown items go through
`importMarkdownFile`; non-markdown items only reach the asset storage
collaborator (upload or duplicate-skip), which never touches the
document store. -/
def importFile (s : DocState) (f : VaultFile) (settings : ImportSettings)
    (parentFolder : Option FolderDoc) (parentJournal : Option (List Char)) : DocState :=
  match f with
  | .md file => (importMarkdownFile s file settings parentFolder parentJournal).2
  | .other => s

/-- The `combineFiles` decision of `importFolder` (lines 180-182):
combining is on, the folder has a markdown item of its own, and either
combining is not restricted to leaf folders or there are no child
folders. -/
def combineFilesFor (settings : ImportSettings) (folder : FolderInfo) : Bool :=
  settings.combineNotes &&
    decide (0 < (folder.files.filter VaultFile.isMd).length) &&
    (!settings.combineNotesNoSubfolders || decide (folder.childFolders.length < 1))

/-- The `oneJournalPerFile` decision (lines 186-189): not combining,
a non-root folder, and a markdown item somewhere in the subtree. -/
def oneJournalPerFileFor (settings : ImportSettings) (folder : FolderInfo) : Bool :=
  !combineFilesFor settings folder && !folder.name.isEmpty &&
    decide (0 < ((getFilesRecursive folder).filter VaultFile.isMd).length)

/-- The guard of lines 197-205 of `importFolder`, deciding whether the
destination folder for this level is created-or-fetched. -/
def shouldCreateFolder (settings : ImportSettings) (folder : FolderInfo) : Bool :=
  oneJournalPerFileFor settings folder ||
    (combineFilesFor settings folder &&
      decide (0 < (folder.childFolders.filter fun child =>
        decide (0 < ((getFilesRecursive child).filter VaultFile.isMd).length)).length))

/-- `createOrGetFolder` lifted to the document store state. -/
def createOrGetFolderD (s : DocState) (folderName : Option (List Char))
    (parentFolderID : Option (List Char)) (folderPath : List (List Char)) :
    Option FolderDoc × DocState :=
  let r := createOrGetFolder s.folders folderName parentFolderID folderPath
  (r.1, { s with folders := r.2 })

mutual

/-- `LavaFlow.importFolder(folder, settings, parentFolder, ...,
currentPath)` restricted to its document effects: the combining
journal, the guarded `createOrGetFolder` for this level, the file
imports, and the recursion into child folders with the extended
path. -/
def importFolder (s : DocState) (folder : FolderInfo) (settings : ImportSettings)
    (parentFolder : Option FolderDoc) (currentPath : List (List Char)) : DocState :=
  match folder with
  | .mk nm fs cs =>
      let pj : Option (List Char) × DocState :=
        if combineFilesFor settings (.mk nm fs cs) then
          let folderPath :=
            if !nm.isEmpty then joinChar '/' (currentPath ++ [nm])
            else joinChar '/' currentPath
          let r := createJournal s nm parentFolder settings.playerObserve (some folderPath)
          (some r.1, r.2)
        else (none, s)
      let pf : Option FolderDoc × DocState :=
        if shouldCreateFolder settings (.mk nm fs cs) then
          createOrGetFolderD pj.2 (some nm) (parentFolder.map (·.id)) currentPath
        else (parentFolder, pj.2)
      let s3 := fs.foldl (fun st f => importFile st f settings pf.1 pj.1) pf.2
      let childPath := if !nm.isEmpty then currentPath ++ [nm] else currentPath
      importChildFolders s3 cs settings pf.1 childPath

/-- The child-folder loop of `importFolder`. -/
def importChildFolders (s : DocState) (cs : List FolderInfo) (settings : ImportSettings)
    (parentFolder : Option FolderDoc) (childPath : List (List Char)) : DocState :=
  match cs with
  | [] => s
  | c :: rest =>
      importChildFolders (importFolder s c settings parentFolder childPath) rest settings
        parentFolder childPath

end

/-- The document-creating phase of `importVault`: the root Foundry
folder (`createOrGetFolder(settings.rootFolderName)`) followed by the
recursive folder import. -/
def importVaultDocs (s : DocState) (tree : FolderInfo) (settings : ImportSettings) :
    DocState :=
  let rf := createOrGetFolderD s settings.rootFolderName none []
  importFolder rf.2 tree settings rf.1 []

/-! ## Theorems -/

theorem jsInt32_lb (n : Int) : -2147483648 ≤ jsInt32 n := by
  unfold jsInt32; omega

theorem jsInt32_ub (n : Int) : jsInt32 n < 2147483648 := by
  unfold jsInt32; omega

theorem jsInt32_emod (n : Int) : (4294967296 : Int) ∣ jsInt32 n - n := by
  unfold jsInt32; omega

theorem hashStep_lb (h : Int) (c : Nat) : -2147483648 ≤ hashStep h c := jsInt32_lb _

theorem hashStep_ub (h : Int) (c : Nat) : hashStep h c < 2147483648 := jsInt32_ub _

theorem hashStep_emod (h : Int) (c : Nat) :
    (4294967296 : Int) ∣ hashStep h c - (31 * h + (c : Int)) := by
  have h1 := jsInt32_emod (h * 32)
  have h2 := jsInt32_emod (jsInt32 (h * 32) - h + (c : Int))
  unfold hashStep
  omega

theorem hashRaw_fold_lb (s : List Nat) :
    ∀ h : Int, -2147483648 ≤ h → h < 2147483648 →
      -2147483648 ≤ s.foldl hashStep h ∧ s.foldl hashStep h < 2147483648 := by
  induction s with
  | nil => intro h h1 h2; exact ⟨h1, h2⟩
  | cons c t ih =>
      intro h _ _
      rw [List.foldl_cons]
      exact ih (hashStep h c) (hashStep_lb h c) (hashStep_ub h c)

theorem hashRaw_lb (s : List Nat) : -2147483648 ≤ hashRaw s :=
  (hashRaw_fold_lb s 0 (by omega) (by omega)).1

theorem hashRaw_ub (s : List Nat) : hashRaw s < 2147483648 :=
  (hashRaw_fold_lb s 0 (by omega) (by omega)).2

theorem toB36Aux_eq_digits : ∀ fuel n, 0 < n → n ≤ fuel →
    toB36Aux fuel n = (Nat.digits 36 n).reverse := by
  intro fuel
  induction fuel with
  | zero => intro n h1 h2; omega
  | succ fuel ih =>
      intro n h1 h2
      unfold toB36Aux
      rw [if_neg (by omega)]
      rw [Nat.digits_def' (by norm_num : (1 : Nat) < 36) h1]
      simp only [List.reverse_cons]
      by_cases hq : n / 36 = 0
      · rw [hq]
        cases fuel with
        | zero => simp [toB36Aux]
        | succ f => simp [toB36Aux]
      · rw [ih (n / 36) (by omega) (by
          have := Nat.div_lt_self h1 (by norm_num : 1 < 36)
          omega)]

theorem toB36_eq_digits (n : Nat) :
    toB36 n = if n = 0 then [0] else (Nat.digits 36 n).reverse := by
  unfold toB36
  by_cases h : n = 0
  · rw [if_pos h, if_pos h]
  · rw [if_neg h, if_neg h, toB36Aux_eq_digits n n (by omega) le_rfl]

theorem toB36_ne_nil (n : Nat) : toB36 n ≠ [] := by
  rw [toB36_eq_digits]
  split
  · simp
  · simp [Nat.digits_ne_nil_iff_ne_zero, *]

theorem toB36_digits_lt (n : Nat) : ∀ d ∈ toB36 n, d < 36 := by
  intro d hd
  rw [toB36_eq_digits] at hd
  split at hd
  · simp at hd; omega
  · exact Nat.digits_lt_base (by norm_num) (List.mem_reverse.mp hd)

theorem padTo_digits_lt (len : Nat) (ds : List Nat) (h : ∀ d ∈ ds, d < 36) :
    ∀ d ∈ padTo len ds, d < 36 := by
  intro d hd
  unfold padTo at hd
  rcases List.mem_append.mp hd with h1 | h1
  · have := List.eq_of_mem_replicate h1; omega
  · exact h d h1

theorem padTo_length (len : Nat) (ds : List Nat) :
    (padTo len ds).length = max len ds.length := by
  unfold padTo; simp; omega

theorem digitChar36_alnum : ∀ d < 36, isBase36Char (digitChar36 d) = true := by decide

theorem foldl_hashStep_shift (t : List Nat) :
    ∀ h : Int, (4294967296 : Int) ∣
      t.foldl hashStep h - ((31 : Int) ^ t.length * h + t.foldl hashStep 0) := by
  induction t with
  | nil => intro h; simp
  | cons c t ih =>
      intro h
      have ih1 := ih (hashStep h c)
      have ih2 := ih (hashStep 0 c)
      have key : (4294967296 : Int) ∣
          (31 : Int) ^ t.length * (hashStep h c - (31 * h + (c : Int))) :=
        Dvd.dvd.mul_left (hashStep_emod h c) _
      have key2 : (4294967296 : Int) ∣
          (31 : Int) ^ t.length * (hashStep 0 c - (31 * 0 + (c : Int))) :=
        Dvd.dvd.mul_left (hashStep_emod 0 c) _
      simp only [List.foldl_cons, List.length_cons]
      have comb := dvd_add (dvd_sub ih1 ih2) (dvd_sub key key2)
      have algebra :
          List.foldl hashStep (hashStep h c) t -
            ((31 : Int) ^ (t.length + 1) * h + List.foldl hashStep (hashStep 0 c) t) =
          (List.foldl hashStep (hashStep h c) t -
              ((31 : Int) ^ t.length * hashStep h c + List.foldl hashStep 0 t)) -
            (List.foldl hashStep (hashStep 0 c) t -
              ((31 : Int) ^ t.length * hashStep 0 c + List.foldl hashStep 0 t)) +
          ((31 : Int) ^ t.length * (hashStep h c - (31 * h + (c : Int))) -
            (31 : Int) ^ t.length * (hashStep 0 c - (31 * 0 + (c : Int)))) := by
        ring
      rw [algebra]
      exact comb

theorem hashRaw_append_shift (pre t : List Nat) :
    (4294967296 : Int) ∣
      hashRaw (pre ++ t) - ((31 : Int) ^ t.length * hashRaw pre + hashRaw t) := by
  unfold hashRaw
  rw [List.foldl_append]
  exact foldl_hashStep_shift t (List.foldl hashStep 0 pre)

theorem dvd_of_dvd_mul31 (e : Int) (h : (4294967296 : Int) ∣ 31 * e) :
    (4294967296 : Int) ∣ e := by
  omega

theorem dvd_of_dvd_pow31_mul (k : Nat) (e : Int) :
    (4294967296 : Int) ∣ (31 : Int) ^ k * e → (4294967296 : Int) ∣ e := by
  induction k with
  | zero =>
      intro h
      rw [pow_zero, one_mul] at h
      exact h
  | succ n ih =>
      intro h
      apply ih
      apply dvd_of_dvd_mul31
      have : (31 : Int) * ((31 : Int) ^ n * e) = (31 : Int) ^ (n + 1) * e := by ring
      rw [this]
      exact h

theorem ofDigits_replicate_zero (k : Nat) :
    Nat.ofDigits 36 (List.replicate k 0) = 0 := by
  induction k with
  | zero => simp [Nat.ofDigits]
  | succ n ih => simp [List.replicate_succ, Nat.ofDigits_cons, ih]

theorem val36_toB36 (n : Nat) : Nat.ofDigits 36 (toB36 n).reverse = n := by
  rw [toB36_eq_digits]
  split
  · simp [Nat.ofDigits, *]
  · rw [List.reverse_reverse, Nat.ofDigits_digits]

theorem val36_padTo (len n : Nat) :
    Nat.ofDigits 36 (padTo len (toB36 n)).reverse = n := by
  unfold padTo
  rw [List.reverse_append, Nat.ofDigits_append, val36_toB36, List.reverse_replicate,
    ofDigits_replicate_zero]
  ring

theorem padTo_toB36_inj (len m n : Nat)
    (h : padTo len (toB36 m) = padTo len (toB36 n)) : m = n := by
  have hm := val36_padTo len m
  rw [h, val36_padTo] at hm
  omega

theorem toB36_inj (m n : Nat) (h : toB36 m = toB36 n) : m = n := by
  have hm := val36_toB36 m
  rw [h, val36_toB36] at hm
  omega

theorem toB36_length_le (k n : Nat) (hk : 0 < k) (h : n < 36 ^ k) :
    (toB36 n).length ≤ k := by
  rw [toB36_eq_digits]
  split
  · simpa using hk
  · rw [List.length_reverse]
    have h1 := Nat.base_pow_length_digits_le 36 n (by norm_num) (by assumption)
    by_contra hlt
    push_neg at hlt
    have h2 : (36 : Nat) ^ (k + 1) ≤ 36 ^ (Nat.digits 36 n).length :=
      Nat.pow_le_pow_right (by norm_num) hlt
    have h3 : 36 * n < 36 * 36 ^ k := by omega
    have h4 : (36 : Nat) ^ (k + 1) = 36 * 36 ^ k := pow_succ' 36 k
    omega

theorem toB36_length_gt (k n : Nat) (h : 36 ^ k ≤ n) : k < (toB36 n).length := by
  rw [toB36_eq_digits]
  have hp : 0 < (36 : Nat) ^ k := Nat.pow_pos (by norm_num)
  have hn : n ≠ 0 := by omega
  rw [if_neg hn, List.length_reverse]
  have h1 := Nat.lt_base_pow_length_digits (b := 36) (m := n) (by norm_num)
  by_contra hle
  push_neg at hle
  have h2 : (36 : Nat) ^ (Nat.digits 36 n).length ≤ 36 ^ k :=
    Nat.pow_le_pow_right (by norm_num) hle
  omega

theorem toB36_split (n : Nat) (h : 36 ≤ n) :
    toB36 n = toB36 (n / 36) ++ [n % 36] := by
  simp only [toB36_eq_digits]
  have hn : n ≠ 0 := by omega
  have hq : n / 36 ≠ 0 := by omega
  rw [if_neg hn, if_neg hq,
    Nat.digits_def' (by norm_num : (1 : Nat) < 36) (by omega : 0 < n)]
  simp

theorem toB36_head (k : Nat) : ∀ n, 36 ^ k ≤ n → n < 36 ^ (k + 1) →
    (toB36 n).head? = some (n / 36 ^ k) := by
  induction k with
  | zero =>
      intro n h1 h2
      simp only [pow_zero, pow_one] at h1 h2
      rw [toB36_eq_digits]
      rw [if_neg (by omega),
        Nat.digits_def' (by norm_num : (1 : Nat) < 36) (by omega : 0 < n)]
      have hq : n / 36 = 0 := by omega
      have hm : n % 36 = n := by omega
      rw [hq, hm]
      simp
  | succ k ih =>
      intro n h1 h2
      have h36 : 36 ≤ n := by
        have : (36 : Nat) ^ 1 ≤ 36 ^ (k + 1) := Nat.pow_le_pow_right (by norm_num) (by omega)
        simp only [pow_one] at this
        omega
      rw [toB36_split n h36,
        List.head?_append_of_ne_nil _ (toB36_ne_nil (n / 36)),
        ih (n / 36) ?_ ?_]
      · congr 1
        rw [Nat.div_div_eq_div_mul, ← pow_succ']
      · rw [Nat.le_div_iff_mul_le (by norm_num)]
        calc 36 ^ k * 36 = 36 ^ (k + 1) := (pow_succ 36 k).symm
          _ ≤ n := h1
      · rw [Nat.div_lt_iff_lt_mul (by norm_num)]
        calc n < 36 ^ (k + 2) := h2
          _ = 36 ^ (k + 1) * 36 := pow_succ 36 (k + 1)

theorem padTo_of_length_ge (len : Nat) (ds : List Nat) (h : len ≤ ds.length) :
    padTo len ds = ds := by
  unfold padTo
  have : len - ds.length = 0 := by omega
  rw [this]
  simp

theorem take_append_of_le {α : Type} (n : Nat) (l1 l2 : List α) (h : l1.length ≤ n) :
    (l1 ++ l2).take n = l1 ++ l2.take (n - l1.length) := by
  induction l1 generalizing n with
  | nil => simp
  | cons a t ih =>
      cases n with
      | zero => simp at h
      | succ n =>
          simp only [List.cons_append, List.take_succ_cons, List.length_cons]
          rw [ih n (by simpa using h)]
          simp [Nat.succ_sub_succ]

theorem head?_take_succ {α : Type} (n : Nat) (l : List α) :
    (l.take (n + 1)).head? = l.head? := by
  cases l <;> simp

theorem padTo5_head (n : Nat) (hub : n < 36 ^ 6) :
    (padTo 5 (toB36 n)).head? = some (headDigit n) := by
  unfold headDigit
  by_cases h5 : n < 36 ^ 5
  · by_cases h4 : n < 36 ^ 4
    · have hlen : (toB36 n).length ≤ 4 := toB36_length_le 4 n (by norm_num) h4
      unfold padTo
      have hgap : 5 - (toB36 n).length = (4 - (toB36 n).length) + 1 := by omega
      rw [hgap, List.replicate_succ]
      rw [if_pos h5]
      have : n / 36 ^ 4 = 0 := Nat.div_eq_of_lt h4
      rw [this]
      simp
    · have hlen5 : (toB36 n).length ≤ 5 := toB36_length_le 5 n (by norm_num) h5
      have hlen4 : 4 < (toB36 n).length := toB36_length_gt 4 n (by omega)
      rw [padTo_of_length_ge 5 _ (by omega), if_pos h5]
      exact toB36_head 4 n (by omega) h5
  · have hlen6 : (toB36 n).length ≤ 6 := toB36_length_le 6 n (by norm_num) hub
    have hlen5 : 5 < (toB36 n).length := toB36_length_gt 5 n (by omega)
    rw [padTo_of_length_ge 5 _ (by omega), if_neg h5]
    exact toB36_head 5 n (by omega) hub

theorem toBase36_6_length (n : Nat) (h : n ≤ 2147483648) :
    (toBase36 n 6).length = 6 := by
  unfold toBase36
  rw [padTo_length]
  have := toB36_length_le 6 n (by norm_num) (by norm_num; omega)
  omega

theorem toBase36_5_length_small (n : Nat) (h : n < 60466176) :
    (toBase36 n 5).length = 5 := by
  unfold toBase36
  rw [padTo_length]
  have := toB36_length_le 5 n (by norm_num) (by norm_num; omega)
  omega

theorem toBase36_5_large (n : Nat) (hlb : 60466176 ≤ n) (hub : n ≤ 2147483648) :
    toBase36 n 5 = toB36 n ∧ (toB36 n).length = 6 := by
  have h1 : 5 < (toB36 n).length := toB36_length_gt 5 n (by norm_num; omega)
  have h2 : (toB36 n).length ≤ 6 := toB36_length_le 6 n (by norm_num) (by norm_num; omega)
  exact ⟨padTo_of_length_ge 5 _ (by omega), by omega⟩

theorem rest10_equal_small (a2 a3 b2 b3 : Nat)
    (ha : a2 < 60466176) (hb : b2 < 60466176)
    (h : (toBase36 a2 5 ++ toBase36 a3 5).take 10 =
      (toBase36 b2 5 ++ toBase36 b3 5).take 10) : a2 = b2 := by
  have la : (toBase36 a2 5).length = 5 := toBase36_5_length_small a2 ha
  have lb : (toBase36 b2 5).length = 5 := toBase36_5_length_small b2 hb
  rw [take_append_of_le 10 _ _ (by omega), take_append_of_le 10 _ _ (by omega)] at h
  exact padTo_toB36_inj 5 a2 b2 (List.append_inj h (by omega)).1

theorem rest10_equal_large (a2 a3 b2 b3 : Nat)
    (ha : 60466176 ≤ a2) (hb : 60466176 ≤ b2)
    (haub : a2 ≤ 2147483648) (hbub : b2 ≤ 2147483648)
    (h : (toBase36 a2 5 ++ toBase36 a3 5).take 10 =
      (toBase36 b2 5 ++ toBase36 b3 5).take 10) : a2 = b2 := by
  obtain ⟨ea, la⟩ := toBase36_5_large a2 ha haub
  obtain ⟨eb, lb⟩ := toBase36_5_large b2 hb hbub
  rw [ea, eb] at h
  rw [take_append_of_le 10 _ _ (by omega), take_append_of_le 10 _ _ (by omega)] at h
  exact toB36_inj a2 b2 (List.append_inj h (by omega)).1

theorem rest10_boundary_extract (a2 a3 b2 b3 : Nat)
    (ha : a2 < 60466176) (hb : 60466176 ≤ b2)
    (hbub : b2 ≤ 2147483648) (ha3ub : a3 ≤ 2147483648)
    (h : (toBase36 a2 5 ++ toBase36 a3 5).take 10 =
      (toBase36 b2 5 ++ toBase36 b3 5).take 10) :
    a2 = b2 / 36 ∧ headDigit a3 = b2 % 36 := by
  have la : (toBase36 a2 5).length = 5 := toBase36_5_length_small a2 ha
  obtain ⟨eb, lb⟩ := toBase36_5_large b2 hb hbub
  have hsplit : toB36 b2 = toB36 (b2 / 36) ++ [b2 % 36] := toB36_split b2 (by omega)
  have lq : (toB36 (b2 / 36)).length = 5 := by
    have := congrArg List.length hsplit
    simp at this
    omega
  rw [eb, hsplit, List.append_assoc] at h
  rw [take_append_of_le 10 _ _ (by omega), take_append_of_le 10 _ _ (by omega)] at h
  obtain ⟨hL, hR⟩ := List.append_inj h (by omega)
  rw [show toBase36 a2 5 = padTo 5 (toB36 a2) from rfl] at hL
  constructor
  · have hv := val36_padTo 5 a2
    rw [hL, val36_toB36] at hv
    omega
  · rw [la, lq] at hR
    have hhead := congrArg List.head? hR
    rw [show (10 : Nat) - 5 = 4 + 1 from rfl, head?_take_succ, head?_take_succ] at hhead
    rw [show toBase36 a3 5 = padTo 5 (toB36 a3) from rfl] at hhead
    rw [padTo5_head a3 (by norm_num; omega)] at hhead
    simp at hhead
    exact hhead

theorem uuid_boundary_numeric (xv yv x3v : Int)
    (hxlb : -2147483648 ≤ xv) (hxub : xv < 2147483648)
    (hylb : -2147483648 ≤ yv) (hyub : yv < 2147483648)
    (hx3lb : -2147483648 ≤ x3v) (hx3ub : x3v < 2147483648)
    (hsum : (4294967296 : Int) ∣ xv + yv - 218404150)
    (hx3 : (4294967296 : Int) ∣ x3v - xv - 1)
    (hb : 60466176 ≤ yv.natAbs)
    (hfloor : xv.natAbs = yv.natAbs / 36)
    (hdig : headDigit x3v.natAbs = yv.natAbs % 36) : False := by
  unfold headDigit at hdig
  rw [show (36 : Nat) ^ 5 = 60466176 from by norm_num,
    show (36 : Nat) ^ 4 = 1679616 from by norm_num] at hdig
  obtain ⟨k, hk⟩ := hsum
  obtain ⟨m, hm⟩ := hx3
  have hkv : k = 0 ∨ k = -1 := by omega
  have hmv : m = 0 := by omega
  rcases hkv with rfl | rfl
  · split at hdig <;> omega
  · split at hdig <;> omega

theorem uuidDigits_ne_of_hash_ne (a b : List Nat)
    (hne : ¬ (4294967296 : Int) ∣ (hashRaw a - hashRaw b)) :
    uuidDigits a ≠ uuidDigits b := by
  intro heq
  have hAlb := hashRaw_lb a
  have hAub := hashRaw_ub a
  have hBlb := hashRaw_lb b
  have hBub := hashRaw_ub b
  have hxlb := hashRaw_lb (a ++ salt1)
  have hxub := hashRaw_ub (a ++ salt1)
  have hylb := hashRaw_lb (b ++ salt1)
  have hyub := hashRaw_ub (b ++ salt1)
  have hx3lb := hashRaw_lb (a ++ salt2)
  have hx3ub := hashRaw_ub (a ++ salt2)
  have hy3lb := hashRaw_lb (b ++ salt2)
  have hy3ub := hashRaw_ub (b ++ salt2)
  have hx := hashRaw_append_shift a salt1
  have hy := hashRaw_append_shift b salt1
  have hx3 := hashRaw_append_shift a salt2
  have hy3 := hashRaw_append_shift b salt2
  rw [show salt1.length = 5 from rfl, (by decide : hashRaw salt1 = 109202075),
    (by norm_num : ((31 : Int) ^ 5) = 28629151)] at hx hy
  rw [show salt2.length = 5 from rfl, (by decide : hashRaw salt2 = 109202076),
    (by norm_num : ((31 : Int) ^ 5) = 28629151)] at hx3 hy3
  have ha1ub : hashString a ≤ 2147483648 := by unfold hashString; omega
  have hb1ub : hashString b ≤ 2147483648 := by unfold hashString; omega
  have ha2ub : hashString (a ++ salt1) ≤ 2147483648 := by unfold hashString; omega
  have hb2ub : hashString (b ++ salt1) ≤ 2147483648 := by unfold hashString; omega
  have ha3ub : hashString (a ++ salt2) ≤ 2147483648 := by unfold hashString; omega
  have hb3ub : hashString (b ++ salt2) ≤ 2147483648 := by unfold hashString; omega
  unfold uuidDigits at heq
  simp only [List.append_assoc] at heq
  rw [take_append_of_le 16 _ _ (by rw [toBase36_6_length _ ha1ub]; omega),
    take_append_of_le 16 _ _ (by rw [toBase36_6_length _ hb1ub]; omega)] at heq
  obtain ⟨h1eq, hrest⟩ := List.append_inj heq
    (by rw [toBase36_6_length _ ha1ub, toBase36_6_length _ hb1ub])
  rw [toBase36_6_length _ ha1ub, toBase36_6_length _ hb1ub,
    show (16 : Nat) - 6 = 10 from rfl] at hrest
  have h1 : hashString a = hashString b := padTo_toB36_inj 6 _ _ h1eq
  have hAB : hashRaw a = hashRaw b ∨ hashRaw a = -hashRaw b := by
    unfold hashString at h1
    omega
  rcases hAB with hABeq | hABneg
  · exact hne (by rw [hABeq]; simp)
  · by_cases hc2a : hashString (a ++ salt1) < 60466176
    · by_cases hc2b : hashString (b ++ salt1) < 60466176
      · have h2 := rest10_equal_small _ _ _ _ hc2a hc2b hrest
        have hxy : hashRaw (a ++ salt1) = hashRaw (b ++ salt1) ∨
            hashRaw (a ++ salt1) = -hashRaw (b ++ salt1) := by
          unfold hashString at h2
          omega
        omega
      · obtain ⟨hfl, hdg⟩ :=
          rest10_boundary_extract _ _ _ _ hc2a (by omega) hb2ub ha3ub hrest
        refine uuid_boundary_numeric (hashRaw (a ++ salt1)) (hashRaw (b ++ salt1))
          (hashRaw (a ++ salt2)) hxlb hxub hylb hyub hx3lb hx3ub ?_ ?_ ?_ ?_ ?_
        · omega
        · omega
        · unfold hashString at hc2b
          omega
        · unfold hashString at hfl
          exact hfl
        · unfold hashString at hdg
          exact hdg
    · by_cases hc2b : hashString (b ++ salt1) < 60466176
      · obtain ⟨hfl, hdg⟩ :=
          rest10_boundary_extract _ _ _ _ hc2b (by omega) ha2ub hb3ub hrest.symm
        refine uuid_boundary_numeric (hashRaw (b ++ salt1)) (hashRaw (a ++ salt1))
          (hashRaw (b ++ salt2)) hylb hyub hxlb hxub hy3lb hy3ub ?_ ?_ ?_ ?_ ?_
        · omega
        · omega
        · unfold hashString at hc2a
          omega
        · unfold hashString at hfl
          exact hfl
        · unfold hashString at hdg
          exact hdg
      · have h2 := rest10_equal_large _ _ _ _ (by omega) (by omega) ha2ub hb2ub hrest
        have hxy : hashRaw (a ++ salt1) = hashRaw (b ++ salt1) ∨
            hashRaw (a ++ salt1) = -hashRaw (b ++ salt1) := by
          unfold hashString at h2
          omega
        omega

theorem uuidDigits_lt (inp : List Nat) : ∀ d ∈ uuidDigits inp, d < 36 := by
  intro d hd
  unfold uuidDigits at hd
  have hd' := List.take_subset _ _ hd
  rcases List.mem_append.mp hd' with h1 | h1
  · rcases List.mem_append.mp h1 with h2 | h2
    · exact padTo_digits_lt _ _ (toB36_digits_lt _) d h2
    · exact padTo_digits_lt _ _ (toB36_digits_lt _) d h2
  · exact padTo_digits_lt _ _ (toB36_digits_lt _) d h1

theorem digitChar36_inj : ∀ a < 36, ∀ b < 36, digitChar36 a = digitChar36 b → a = b := by
  decide

theorem map_digitChar36_inj (l1 : List Nat) : ∀ l2 : List Nat, (∀ d ∈ l1, d < 36) →
    (∀ d ∈ l2, d < 36) → l1.map digitChar36 = l2.map digitChar36 → l1 = l2 := by
  induction l1 with
  | nil =>
      intro l2 _ _ h
      cases l2 with
      | nil => rfl
      | cons b t2 => simp at h
  | cons a t ih =>
      intro l2 h1 h2 h
      cases l2 with
      | nil => simp at h
      | cons b t2 =>
          simp only [List.map_cons, List.cons.injEq] at h
          have hab : a = b :=
            digitChar36_inj a (h1 a (by simp)) b (h2 b (by simp)) h.1
          rw [hab, ih t2 (fun d hd => h1 d (by simp [hd]))
            (fun d hd => h2 d (by simp [hd])) h.2]

theorem hash_pair_ne (ns1 ns2 p : List Nat)
    (hne : ¬ (4294967296 : Int) ∣ (hashRaw (ns1 ++ [58]) - hashRaw (ns2 ++ [58]))) :
    ¬ (4294967296 : Int) ∣ (hashRaw (ns1 ++ 58 :: p) - hashRaw (ns2 ++ 58 :: p)) := by
  intro hdvd
  rw [show ns1 ++ 58 :: p = (ns1 ++ [58]) ++ p by simp,
    show ns2 ++ 58 :: p = (ns2 ++ [58]) ++ p by simp] at hdvd
  have h1 := hashRaw_append_shift (ns1 ++ [58]) p
  have h2 := hashRaw_append_shift (ns2 ++ [58]) p
  have hk : (4294967296 : Int) ∣ (31 : Int) ^ p.length *
      (hashRaw (ns1 ++ [58]) - hashRaw (ns2 ++ [58])) := by
    have e : (31 : Int) ^ p.length * (hashRaw (ns1 ++ [58]) - hashRaw (ns2 ++ [58])) =
        (hashRaw ((ns1 ++ [58]) ++ p) - hashRaw ((ns2 ++ [58]) ++ p)) -
          (hashRaw ((ns1 ++ [58]) ++ p) -
            ((31 : Int) ^ p.length * hashRaw (ns1 ++ [58]) + hashRaw p)) +
          (hashRaw ((ns2 ++ [58]) ++ p) -
            ((31 : Int) ^ p.length * hashRaw (ns2 ++ [58]) + hashRaw p)) := by
      ring
    rw [e]
    exact dvd_add (dvd_sub hdvd h1) h2
  exact hne (dvd_of_dvd_pow31_mul p.length _ hk)

/-- C1: for every namespace string and path string,
`identity(namespace, path)` (`generateDeterministicUUID` of
src/deterministic-uuid.ts) returns a string of exactly 16 alphanumeric
base-36 characters, and — being a pure function of its two arguments in
this embedding — two calls with the same pair return the same string. -/
theorem c1_identity_sixteen_alnum_deterministic (ns path : List Nat) :
    (generateDeterministicUUID path ns).length = 16 ∧
    (∀ c ∈ generateDeterministicUUID path ns, isBase36Char c = true) ∧
    generateDeterministicUUID path ns = generateDeterministicUUID path ns := by
  refine ⟨?_, ?_, rfl⟩
  · unfold generateDeterministicUUID uuidDigits
    rw [List.length_map, List.length_take]
    have l1 := padTo_length 6 (toB36 (hashString (ns ++ 58 :: path)))
    have l2 := padTo_length 5 (toB36 (hashString ((ns ++ 58 :: path) ++ salt1)))
    have l3 := padTo_length 5 (toB36 (hashString ((ns ++ 58 :: path) ++ salt2)))
    unfold toBase36
    simp only [List.length_append]
    omega
  · intro c hc
    unfold generateDeterministicUUID at hc
    rcases List.mem_map.mp hc with ⟨d, hd, rfl⟩
    have hd' := List.take_subset _ _ hd
    unfold uuidDigits toBase36 at hd'  -- the `take 16` above was already removed
    have : d < 36 := by
      rcases List.mem_append.mp hd' with h1 | h1
      · rcases List.mem_append.mp h1 with h2 | h2
        · exact padTo_digits_lt _ _ (toB36_digits_lt _) d h2
        · exact padTo_digits_lt _ _ (toB36_digits_lt _) d h2
      · exact padTo_digits_lt _ _ (toB36_digits_lt _) d h1
    exact digitChar36_alnum d this

/-- C7: for every path `p`, the identities produced for `p` under the
three namespaces in use (`'folder'`, `'journal'`, `'page'`) are pairwise
distinct: the three salted 32-bit rolling hashes never agree on all
sixteen output characters for two distinct namespaces with the same
path. -/
theorem c7_namespace_identities_distinct (p : List Nat) :
    generateDeterministicUUID p folderNS ≠ generateDeterministicUUID p journalNS ∧
    generateDeterministicUUID p folderNS ≠ generateDeterministicUUID p pageNS ∧
    generateDeterministicUUID p journalNS ≠ generateDeterministicUUID p pageNS := by
  refine ⟨?_, ?_, ?_⟩
  · intro h
    unfold generateDeterministicUUID at h
    have hdig := map_digitChar36_inj _ _ (uuidDigits_lt _) (uuidDigits_lt _) h
    refine uuidDigits_ne_of_hash_ne _ _ (hash_pair_ne folderNS journalNS p ?_) hdig
    rw [(by decide : hashRaw (folderNS ++ [58]) = -683249268),
      (by decide : hashRaw (journalNS ++ [58]) = -1053739037)]
    omega
  · intro h
    unfold generateDeterministicUUID at h
    have hdig := map_digitChar36_inj _ _ (uuidDigits_lt _) (uuidDigits_lt _) h
    refine uuidDigits_ne_of_hash_ne _ _ (hash_pair_ne folderNS pageNS p ?_) hdig
    rw [(by decide : hashRaw (folderNS ++ [58]) = -683249268),
      (by decide : hashRaw (pageNS ++ [58]) = 106426251)]
    omega
  · intro h
    unfold generateDeterministicUUID at h
    have hdig := map_digitChar36_inj _ _ (uuidDigits_lt _) (uuidDigits_lt _) h
    refine uuidDigits_ne_of_hash_ne _ _ (hash_pair_ne journalNS pageNS p ?_) hdig
    rw [(by decide : hashRaw (journalNS ++ [58]) = -1053739037),
      (by decide : hashRaw (pageNS ++ [58]) = 106426251)]
    omega

/-- C3: frontmatter extraction on the text
`"---\npublic: true\n---\nBody"` yields `isPublic = true` and body
`"Body"` (the leading triple-dash block removed); and for every raw
text, the produced document is public exactly when the parsed
frontmatter's `public` key is boolean `true` or its `visibility` key
case-insensitively equals `"public"`, and private otherwise — in
particular when no frontmatter block is present, since the parsed map
is then empty and an absent `visibility` stringifies to
`"undefined"`. -/
theorem c3_frontmatter_extraction :
    (parseFrontmatterAndBody (strL "---\npublic: true\n---\nBody") false).isPublic = true ∧
    (parseFrontmatterAndBody (strL "---\npublic: true\n---\nBody") false).body =
      strL "Body" ∧
    ∀ raw strip, (parseFrontmatterAndBody raw strip).isPublic = true ↔
      (fmLookup (parseFrontmatterAndBody raw strip).frontmatter (strL "public") =
          some (FmVal.b true) ∨
        toLowerStr (fmValToString
          (fmLookup (parseFrontmatterAndBody raw strip).frontmatter (strL "visibility"))) =
          strL "public") := by
  refine ⟨by decide, by decide, ?_⟩
  intro raw strip
  unfold parseFrontmatterAndBody
  cases hfm : fmBlockSplit raw with
  | none =>
      simp only [hfm]
      constructor
      · intro h
        exact absurd h (by decide)
      · intro h
        rcases h with h | h
        · exact absurd h (by simp [fmLookup])
        · rw [show fmLookup [] (strL "visibility") = none from rfl] at h
          exact absurd h (by decide)
  | some pr =>
      simp only [hfm, Bool.or_eq_true, beq_iff_eq]

theorem takeWhile_append_stop (p : Char → Bool) (l x : List Char)
    (hx : ∀ c, x.head? = some c → p c = false) :
    (l ++ x).takeWhile p = l.takeWhile p := by
  induction l with
  | nil =>
      cases x with
      | nil => rfl
      | cons c t =>
          have := hx c rfl
          simp [List.takeWhile_cons, this]
  | cons a l ih =>
      by_cases pa : p a <;> simp [List.takeWhile_cons, pa, ih]

theorem takeWhile_drop_spec (p : Char → Bool) (cs : List Char) :
    cs = cs.takeWhile p ++ cs.drop (cs.takeWhile p).length ∧
    (∀ c ∈ cs.takeWhile p, p c = true) ∧
    (∀ c, (cs.drop (cs.takeWhile p).length).head? = some c → p c = false) := by
  induction cs with
  | nil => simp
  | cons a t ih =>
      by_cases pa : p a
      · simp only [List.takeWhile_cons, pa, if_true, List.length_cons, List.drop_succ_cons]
        refine ⟨?_, ?_, ih.2.2⟩
        · rw [List.cons_append]
          exact congrArg (a :: ·) ih.1
        · intro c hc
          rcases List.mem_cons.mp hc with rfl | hc
          · exact pa
          · exact ih.2.1 c hc
      · have pa' : p a = false := eq_false_of_ne_true pa
        have htw : (a :: t).takeWhile p = [] := by
          rw [List.takeWhile_cons, pa']
          simp
        rw [htw]
        refine ⟨by simp, by simp, ?_⟩
        intro c hc
        simp only [List.length_nil, List.drop_zero, List.head?_cons, Option.some.injEq] at hc
        rw [← hc]
        exact pa'

theorem hashMarkMatches_ext (cs x : List Char)
    (hx : ∀ c, x.head? = some c → (isAlnumChar c = false ∧ c ≠ '_')) :
    hashMarkMatches (cs ++ x) = hashMarkMatches cs := by
  unfold hashMarkMatches
  rw [takeWhile_append_stop isAlnumChar cs x (fun c hc => (hx c hc).1)]
  have hlen : (cs.takeWhile isAlnumChar).length ≤ cs.length :=
    List.Sublist.length_le (List.takeWhile_sublist _)
  rw [List.drop_append_of_le_length hlen]
  cases hd : cs.drop (cs.takeWhile isAlnumChar).length with
  | nil =>
      simp only [List.nil_append]
      cases hx2 : x.head? with
      | none => simp [hx2]
      | some c =>
          have hne := (hx c hx2).2
          simp [hx2, hne]
  | cons d t => simp

theorem headingTweakGo_cons_term (s : Bool) (c : Char) (cs : List Char)
    (hc : (c == '\n' || c == '\r') = true) :
    headingTweakGo s (c :: cs) = c :: headingTweakGo true cs := by
  simp only [headingTweakGo]
  rw [if_pos hc]

theorem headingTweakGo_cons_nonterm (s : Bool) (c : Char) (cs : List Char)
    (hc : (c == '\n' || c == '\r') = false) :
    headingTweakGo s (c :: cs) =
      if s && c == '#' && hashMarkMatches cs then ' ' :: c :: headingTweakGo false cs
      else c :: headingTweakGo false cs := by
  simp only [headingTweakGo]
  rw [if_neg (by simp_all)]

theorem headingTweakGo_false_passthrough (l : List Char)
    (hl : ∀ c ∈ l, (c == '\n' || c == '\r') = false) (x : List Char) :
    headingTweakGo false (l ++ x) = l ++ headingTweakGo false x := by
  induction l with
  | nil => rfl
  | cons a t ih =>
      have ha := hl a (by simp)
      rw [List.cons_append, headingTweakGo_cons_nonterm false a (t ++ x) ha,
        if_neg (by simp), ih fun c hc => hl c (by simp [hc])]
      rfl

theorem headingTweakGo_false_eq_true (x : List Char)
    (hx : ∀ c, x.head? = some c → (c == '\n' || c == '\r') = true) :
    headingTweakGo false x = headingTweakGo true x := by
  cases x with
  | nil => rfl
  | cons c t =>
      have hc := hx c rfl
      rw [headingTweakGo_cons_term false c t hc, headingTweakGo_cons_term true c t hc]

theorem term_not_alnum_underscore (c : Char) (hc : (c == '\n' || c == '\r') = true) :
    isAlnumChar c = false ∧ c ≠ '_' := by
  rcases Bool.or_eq_true_iff.mp hc with h | h
  · rw [show c = '\n' from beq_iff_eq.mp h]
    exact ⟨by decide, by decide⟩
  · rw [show c = '\r' from beq_iff_eq.mp h]
    exact ⟨by decide, by decide⟩

theorem headingTweakGo_line (l x : List Char)
    (hl : ∀ c ∈ l, (c == '\n' || c == '\r') = false)
    (hx : ∀ c, x.head? = some c → (c == '\n' || c == '\r') = true) :
    headingTweakGo true (l ++ x) =
      (if lineTriggersTweak l then ' ' :: l else l) ++ headingTweakGo true x := by
  cases l with
  | nil =>
      rw [show lineTriggersTweak [] = false from rfl]
      simp
  | cons a cs =>
      have ha := hl a (by simp)
      have hcs : ∀ c ∈ cs, (c == '\n' || c == '\r') = false :=
        fun c hc => hl c (by simp [hc])
      have hext : hashMarkMatches (cs ++ x) = hashMarkMatches cs :=
        hashMarkMatches_ext cs x fun c hc => term_not_alnum_underscore c (hx c hc)
      rw [List.cons_append, headingTweakGo_cons_nonterm true a (cs ++ x) ha]
      by_cases hmark : a = '#' ∧ hashMarkMatches cs = true
      · obtain ⟨rfl, hm⟩ := hmark
        rw [if_pos (by simp [hext, hm])]
        rw [headingTweakGo_false_passthrough cs hcs x,
          headingTweakGo_false_eq_true x hx]
        rw [show lineTriggersTweak ('#' :: cs) = hashMarkMatches cs from rfl, hm]
        simp
      · have htrig : lineTriggersTweak (a :: cs) = false := by
          simp only [lineTriggersTweak]
          cases ha2 : a == '#' with
          | false => simp
          | true =>
              have ha3 : a = '#' := beq_iff_eq.mp ha2
              subst ha3
              cases hm : hashMarkMatches cs with
              | false => simp
              | true => exact absurd ⟨rfl, hm⟩ hmark
        rw [if_neg ?_]
        · rw [headingTweakGo_false_passthrough cs hcs x,
            headingTweakGo_false_eq_true x hx, htrig]
          simp
        · intro hcond
          simp only [Bool.true_and, Bool.and_eq_true, beq_iff_eq] at hcond
          exact hmark ⟨hcond.1, by rw [← hext]; exact hcond.2⟩

theorem splitTerm_decomp (body : List Char) :
    ((∀ c ∈ body, (c == '\n' || c == '\r') = false) ∧
        splitTerm body = [(body, none)]) ∨
      (∃ l c t, body = l ++ c :: t ∧ (c == '\n' || c == '\r') = true ∧
        (∀ d ∈ l, (d == '\n' || d == '\r') = false) ∧
        splitTerm body = (l, some c) :: splitTerm t) := by
  induction body with
  | nil => left; simp [splitTerm]
  | cons a rest ih =>
      by_cases ha : (a == '\n' || a == '\r') = true
      · right
        exact ⟨[], a, rest, by simp, ha, by simp, by simp only [splitTerm]; rw [if_pos ha]⟩
      · have ha' : (a == '\n' || a == '\r') = false := eq_false_of_ne_true ha
        rcases ih with ⟨hfree, hsp⟩ | ⟨l, c, t, rfl, hc, hlfree, hsp⟩
        · left
          constructor
          · intro d hd
            rcases List.mem_cons.mp hd with rfl | hd
            · exact ha'
            · exact hfree d hd
          · simp only [splitTerm]
            rw [if_neg (by simp [ha']), hsp]
        · right
          refine ⟨a :: l, c, t, by simp, hc, ?_, ?_⟩
          · intro d hd
            rcases List.mem_cons.mp hd with rfl | hd
            · exact ha'
            · exact hlfree d hd
          · simp only [splitTerm]
            rw [if_neg (by simp [ha']), hsp]

theorem headingTweak_lines_bounded (n : Nat) : ∀ body : List Char, body.length ≤ n →
    headingTweak body = joinTerm ((splitTerm body).map fun p =>
      (if lineTriggersTweak p.1 then ' ' :: p.1 else p.1, p.2)) := by
  induction n with
  | zero =>
      intro body hlen
      have : body = [] := List.eq_nil_of_length_eq_zero (by omega)
      subst this
      rfl
  | succ n ih =>
      intro body hlen
      rcases splitTerm_decomp body with ⟨hfree, hsp⟩ | ⟨l, c, t, rfl, hc, hlfree, hsp⟩
      · rw [hsp]
        unfold headingTweak
        have hline := headingTweakGo_line body [] hfree (by simp)
        rw [List.append_nil] at hline
        rw [hline]
        simp [joinTerm, headingTweakGo]
      · rw [hsp]
        unfold headingTweak
        rw [headingTweakGo_line l (c :: t) hlfree
          (by intro d hd; simp at hd; subst hd; exact hc)]
        have hlen2 : t.length ≤ n := by
          simp only [List.length_append, List.length_cons] at hlen
          omega
        have ht := ih t hlen2
        unfold headingTweak at ht
        rw [headingTweakGo_cons_term true c t hc, ht]
        simp [joinTerm]

theorem lineTriggersTweak_iff (l : List Char) :
    lineTriggersTweak l = true ↔ headingSpaceCond l := by
  constructor
  · intro h
    cases l with
    | nil => simp [lineTriggersTweak] at h
    | cons a cs =>
        simp only [lineTriggersTweak, Bool.and_eq_true, beq_iff_eq] at h
        obtain ⟨rfl, h⟩ := h
        unfold hashMarkMatches at h
        simp only [Bool.and_eq_true, Bool.not_eq_true'] at h
        obtain ⟨hrun, hbound⟩ := h
        obtain ⟨hsplit, hall, hstop⟩ := takeWhile_drop_spec isAlnumChar cs
        refine ⟨cs.takeWhile isAlnumChar,
          cs.drop (cs.takeWhile isAlnumChar).length, by rw [← hsplit], ?_, hall, ?_⟩
        · intro hnil
          rw [hnil] at hrun
          simp at hrun
        · intro c hc
          refine ⟨hstop c hc, ?_⟩
          intro rfl2
          rw [hc] at hbound
          simp [rfl2] at hbound
  · rintro ⟨run, rest, rfl, hne, hall, hbound⟩
    have htw : (run ++ rest).takeWhile isAlnumChar = run := by
      have h2 : run.takeWhile isAlnumChar = run :=
        List.takeWhile_eq_self_iff.mpr fun c hc => hall c hc
      rw [takeWhile_append_stop isAlnumChar run rest fun c hc => (hbound c hc).1, h2]
    simp only [lineTriggersTweak, hashMarkMatches, htw, Bool.and_eq_true, beq_iff_eq,
      Bool.not_eq_true']
    refine ⟨trivial, ?_, ?_⟩
    · cases run with
      | nil => exact absurd rfl hne
      | cons rh rt => rfl
    · rw [List.drop_left]
      cases hr : rest.head? with
      | none => simp
      | some c =>
          have hc2 := (hbound c hr).2
          simp [hc2]

/-- C9 counterexample: the body `"##x"` begins with a line-initial run
of two `'#'` immediately followed by a letter, so the claim demands a
space be inserted before the marker; the code's regex
`^#[0-9A-Za-z]+\b` requires a single `'#'` followed directly by an
alphanumeric and therefore leaves the body unchanged. -/
theorem c9_counterexample :
    headingTweak (strL "##x") = strL "##x" ∧
      headingTweak (strL "##x") ≠ ' ' :: strL "##x" := by
  constructor
  · decide
  · decide

/-- C9 (amended): body post-processing transforms the body line by line
(line terminators preserved), inserting a leading space exactly on the
lines that start with a single `'#'` immediately followed by a nonempty
maximal run of digits/letters whose end is a word boundary (the first
character after the run, if any, is neither alphanumeric nor an
underscore); all other lines — including those starting with `'##'` or
whose run is followed by `'_'` — are left unchanged. -/
theorem c9_heading_space_insertion (body : List Char) :
    headingTweak body = joinTerm ((splitTerm body).map fun p =>
      (if lineTriggersTweak p.1 then ' ' :: p.1 else p.1, p.2)) ∧
    ∀ l, lineTriggersTweak l = true ↔ headingSpaceCond l :=
  ⟨headingTweak_lines_bounded body.length body le_rfl, lineTriggersTweak_iff⟩



theorem foldl_id {α β : Type} (f : α → β → α) (h : ∀ a b, f a b = a) :
    ∀ (l : List β) (a : α), l.foldl f a = a := by
  intro l
  induction l with
  | nil => intro a; rfl
  | cons b t ih =>
      intro a
      rw [List.foldl_cons, h]
      exact ih a

theorem applyMatches_none (fi : LinkFileInfo) (h : ∀ a, fi.getLink a = none)
    (ms : List LinkMatch) (text : List Char) : applyMatches fi ms text = text :=
  foldl_id _ (fun cur m => by simp only [h]) ms text

/-- C4: during link rewriting, when the target item was never imported —
its `getLink` resolves to `null` for every alias — every page body is
left character-for-character unmodified: each match is skipped by the
`continue` before any replacement happens. -/
theorem c4_unresolved_reference_unchanged (fi : LinkFileInfo) (pages : List PageL)
    (h : ∀ a, fi.getLink a = none) : updateLinks fi pages = pages := by
  unfold updateLinks updateLinksPage
  have hpage : ∀ t, fi.patterns.foldl (fun cur pat => applyMatches fi (pat cur) cur) t = t :=
    fun t => foldl_id _ (fun cur pat => applyMatches_none fi h (pat cur) cur) fi.patterns t
  simp only [hpage]
  exact List.map_id pages

theorem c4_unresolved_reference_unchanged_witness :
    updateLinks ⟨false, [fun _ => [⟨strL "[[A]]", some (strL "|A")⟩]], fun _ => none⟩
      [⟨strL "see [[A]]"⟩] = [⟨strL "see [[A]]"⟩] :=
  c4_unresolved_reference_unchanged _ _ fun _ => rfl

theorem replaceTrailingParen_concat (l dims : List Char) :
    replaceTrailingParen (l ++ [')']) dims = l ++ (strL " =" ++ dims ++ strL ")") := by
  unfold replaceTrailingParen
  rw [List.getLast?_concat, if_pos (by decide), List.dropLast_concat]

/-- C8: when link rewriting resolves an asset reference with a size
suffix, the resolved markup gets an explicit dimension directive
spliced in before its closing parenthesis: `![[img.png|300x200]]`
yields a ` =300x200` directive, and the width-only `![[img.png|300]]`
defaults the height to a wildcard, ` =300x*`. -/
theorem c8_asset_size_suffix (link : List Char) :
    applyResize (strL "![[img.png|300x200]]") (link ++ [')']) =
      link ++ strL " =300x200)" ∧
    applyResize (strL "![[img.png|300]]") (link ++ [')']) = link ++ strL " =300x*)" := by
  constructor
  · have h1 : applyResize (strL "![[img.png|300x200]]") (link ++ [')']) =
        replaceTrailingParen (link ++ [')']) (strL "300x200") := rfl
    rw [h1, replaceTrailingParen_concat]
    exact congrArg (link ++ ·) (by decide)
  · have h1 : applyResize (strL "![[img.png|300]]") (link ++ [')']) =
        replaceTrailingParen (link ++ [')']) (strL "300x*") := rfl
    rw [h1, replaceTrailingParen_concat]
    exact congrArg (link ++ ·) (by decide)

theorem isBacklinkCandidate_false (f o : BLFile) : isBacklinkCandidate f o = false := by
  unfold isBacklinkCandidate
  cases h : o.journalPage with
  | none => rfl
  | some p => rfl

theorem backlink_filter_empty (files : List BLFile) (fi : BLFile) (i : Nat) :
    ((List.range files.length).filter fun j =>
      decide (j ≠ i) &&
        (match files.get? j with
          | some o => isBacklinkCandidate fi o
          | none => false)) = [] := by
  rw [List.filter_eq_nil_iff]
  intro j hj
  cases hg : files.get? j with
  | none => simp [hg]
  | some o => simp [hg, isBacklinkCandidate_false]

theorem createBacklinksGo_eq (files : List BLFile) :
    ∀ k i, files.length - i ≤ k → createBacklinksGo files i = some files := by
  intro k
  induction k with
  | zero =>
      intro i h
      unfold createBacklinksGo
      rw [dif_neg (by omega)]
  | succ k ih =>
      intro i h
      unfold createBacklinksGo
      by_cases hi : i < files.length
      · rw [dif_pos hi]
        simp only [backlink_filter_empty, List.isEmpty_nil, if_true]
        split
        · exact ih (i + 1) (by omega)
        · exact ih (i + 1) (by omega)
      · rw [dif_neg hi]

/-- C5 (the claim is right about the intent; the code never does it):
`createBacklinks` returns with every page untouched, whatever the
files' bodies and links contain — in particular no `References` section
is ever appended — because the backlink-candidate read
`otherFileInfo.journalPage?.pages?.contents[0]` asks a
`JournalEntryPage` for a `pages` collection it does not have, so every
candidate list is empty (and the crash of the non-empty branch is
unreachable). -/
theorem c5_backlinks_never_appended (files : List BLFile) :
    createBacklinks files = some files :=
  createBacklinksGo_eq files files.length 0 (by omega)

set_option maxRecDepth 40000 in
/-- C10 counterexample: in a store holding one folder whose id is the
deterministic folder id of path `["a"]` but whose name is `"b"`,
requesting `"a"` finds no name match, and `createFolder` then returns
the existing `"b"` folder by deterministic id: the result is neither a
folder with the requested name nor a newly created one (the store is
unchanged). -/
theorem c10_counterexample :
    (createOrGetFolder
        [⟨generateFolderUUID [strL "a"], strL "b", none, strL "JournalEntry", 1⟩]
        (some (strL "a")) none []).1 =
      some ⟨generateFolderUUID [strL "a"], strL "b", none, strL "JournalEntry", 1⟩ ∧
    (createOrGetFolder
        [⟨generateFolderUUID [strL "a"], strL "b", none, strL "JournalEntry", 1⟩]
        (some (strL "a")) none []).2 =
      [⟨generateFolderUUID [strL "a"], strL "b", none, strL "JournalEntry", 1⟩] := by
  constructor
  · decide
  · decide

/-- C10 (amended): `createOrGetFolder` returns `null` for a `null` or
empty name, touching the store in neither case; for any other name it
returns the existing folder with that name under the given parent if
one exists (store unchanged); failing that, the folder whose id equals
the deterministic folder id of the path, if present (store unchanged);
and only failing both, a newly created folder with that name, parent
and deterministic id. -/
theorem c10_create_or_get_folder (s : FolderStore) (nm : List Char)
    (pid : Option (List Char)) (path : List (List Char)) (hnm : nm ≠ []) :
    createOrGetFolder s none pid path = (none, s) ∧
    createOrGetFolder s (some []) pid path = (none, s) ∧
    ((∃ f, getFolder s nm pid = some f ∧
        createOrGetFolder s (some nm) pid path = (some f, s)) ∨
      (getFolder s nm pid = none ∧
        ∃ f, foldersGet s (generateFolderUUID (path ++ [nm])) = some f ∧
          createOrGetFolder s (some nm) pid path = (some f, s)) ∨
      (getFolder s nm pid = none ∧
        foldersGet s (generateFolderUUID (path ++ [nm])) = none ∧
        ∃ f, createOrGetFolder s (some nm) pid path = (some f, s ++ [f]) ∧
          f.name = nm ∧ f.folderParent = pid ∧
          f.id = generateFolderUUID (path ++ [nm]))) := by
  have hempty : nm.isEmpty = false := by
    cases nm with
    | nil => exact absurd rfl hnm
    | cons a t => rfl
  refine ⟨rfl, rfl, ?_⟩
  have hred : createOrGetFolder s (some nm) pid path =
      match getFolder s nm pid with
      | some f => (some f, s)
      | none => createFolder s nm pid path := by
    simp only [createOrGetFolder, hempty, Bool.false_eq_true, if_false]
  cases hgv : getFolder s nm pid with
  | some f =>
      refine Or.inl ⟨f, rfl, ?_⟩
      rw [hred, hgv]
  | none =>
      cases hid : foldersGet s (generateFolderUUID (path ++ [nm])) with
      | some f =>
          refine Or.inr (Or.inl ⟨rfl, f, rfl, ?_⟩)
          rw [hred, hgv]
          simp only [createFolder, hid]
      | none =>
          refine Or.inr (Or.inr ⟨rfl, rfl, ?_⟩)
          rw [hred, hgv]
          simp only [createFolder, hid]
          exact ⟨_, rfl, rfl, rfl, rfl⟩

theorem c10_create_or_get_folder_witness :
    strL "a" ≠ [] ∧
    ∃ f, createOrGetFolder [] (some (strL "a")) none [] = (some f, [f]) ∧
      f.name = strL "a" := by
  refine ⟨by decide, ?_⟩
  rcases (c10_create_or_get_folder [] (strL "a") none [] (by decide)).2.2 with
    ⟨f, hf, _⟩ | ⟨_, f, hf, _⟩ | ⟨_, _, f, hf, hname, _, _⟩
  · exact absurd hf (by simp [getFolder])
  · exact absurd hf (by simp [foldersGet])
  · exact ⟨f, by simpa using hf, hname⟩

theorem filter_pos_iff {α : Type} (l : List α) (p : α → Bool) :
    0 < (l.filter p).length ↔ ∃ a ∈ l, p a = true := by
  rw [List.length_pos_iff_exists_mem]
  constructor
  · rintro ⟨a, ha⟩
    rw [List.mem_filter] at ha
    exact ⟨a, ha.1, ha.2⟩
  · rintro ⟨a, ha, hp⟩
    exact ⟨a, List.mem_filter.mpr ⟨ha, hp⟩⟩

theorem isEmpty_false_iff {α : Type} (l : List α) : l.isEmpty = false ↔ l ≠ [] := by
  cases l <;> simp

/-- C6: the destination folder for the current level is
created-or-fetched exactly when (a) files are not being combined, the
folder is non-root (its name is not empty), and its subtree contains a
markdown item anywhere, or (b) files are being combined and some child
folder itself contains markdown items in its subtree. -/
theorem c6_folder_creation_condition (settings : ImportSettings) (folder : FolderInfo) :
    shouldCreateFolder settings folder = true ↔
      ((combineFilesFor settings folder = false ∧ folder.name ≠ [] ∧
          ∃ f ∈ getFilesRecursive folder, f.isMd = true) ∨
        (combineFilesFor settings folder = true ∧
          ∃ c ∈ folder.childFolders, ∃ f ∈ getFilesRecursive c, f.isMd = true)) := by
  unfold shouldCreateFolder oneJournalPerFileFor
  simp only [Bool.or_eq_true, Bool.and_eq_true, Bool.not_eq_true', decide_eq_true_eq,
    filter_pos_iff, isEmpty_false_iff]
  rw [and_assoc]

set_option maxRecDepth 200000 in
/-- C2 (the claim states the intent; the code breaks it): importing the
same one-file vault twice with `combineNotes` enabled creates a second
journal on the second run.  The root folder's accumulated path is the
empty string, which is falsy in `if (filePath)`, so `createJournal`
skips the deterministic-id lookup and creates a fresh
store-identified journal on every run — the second run's journal count
is 2 against the first run's 1. -/
theorem c2_root_combine_duplicates_journal :
    (importVaultDocs ⟨[], [], 0⟩
        (.mk [] [.md ⟨strL "a", strL "a.md", strL "hi"⟩] [])
        ⟨true, false, false, false, false, false, false, none⟩).journals.length = 1 ∧
    (importVaultDocs
        (importVaultDocs ⟨[], [], 0⟩
          (.mk [] [.md ⟨strL "a", strL "a.md", strL "hi"⟩] [])
          ⟨true, false, false, false, false, false, false, none⟩)
        (.mk [] [.md ⟨strL "a", strL "a.md", strL "hi"⟩] [])
        ⟨true, false, false, false, false, false, false, none⟩).journals.length = 2 := by
  constructor
  · decide
  · decide

end LavaFlow
